import Mathlib

/-!
Shallow embedding of the slotted arena allocator (src/arena_allocator.h,
src/arena_allocator.cpp, src/bitmap.h) and proofs about it.

Modelling conventions:

* Machine integers (`size_t`, `uint64_t`, `uint32_t`) are modelled as `Nat`.
  Every bitmap word is kept below `2 ^ 64` (invariant `wordsOk`); all word
  operations (`&`, `|`, `^`, shifts) are the corresponding `Nat` bitwise
  operations, which agree with the 64-bit ones on values below `2 ^ 64`.
* `std::atomic_int16_t slots_in_use` (src/arena_allocator.h lines 18 and 32)
  is modelled as the 16-bit pattern it stores: a `Nat` below `2 ^ 16`;
  `fetch_add(1)` / `fetch_sub(1)` are `inc16` / `dec16` (two's-complement
  wraparound, which is what `std::atomic` arithmetic does).  `toInt16` reads
  the pattern back as the signed value.
* Pointers: `mmap` is a black box returning an arbitrary region start, so the
  constructor takes the region base address as an extra `Nat` parameter.
  `char*` results of `allocate` are `Option Nat` (absolute addresses,
  `none` = `NULL`); `free` takes the same type.
* The code is modelled in its sequential (data) semantics: mutex- and
  spin-lock-protected critical sections execute atomically, and a lock-free
  CAS executes with no interference, i.e. the compare-exchange succeeds on
  first attempt (so `cas_retries` stays unchanged).
* The four bitmap structs (`Bitmap`, `BitmapLockFree`, `BitmapLockFreeHint`,
  `BitmapNoHint`) share the fields `num_slots` / `words` and differ only in
  the presence of `allocation_hint` / `cas_retries`.  They are embedded as a
  single record `Bitmap` carrying the union of the fields; each variant's
  member functions only touch the fields its C++ struct has.  Likewise the
  six arena structs are one record `Arena`.
-/

namespace ArenaAlloc

/-- WORD_SHIFT constant (all bitmap structs). -/
def WORD_SHIFT : Nat := 6

/-- WORD_LENGTH constant (all bitmap structs). -/
def WORD_LENGTH : Nat := 64

/-- WORD_MASK constant (all bitmap structs). -/
def WORD_MASK : Nat := 63

/-- FULLY_ALLOCATED constant: a word with every slot allocated. -/
def FULLY_ALLOCATED : Nat := 0

/-- FULLY_FREE constant: `UINT64_MAX`, every slot free. -/
def FULLY_FREE : Nat := 2 ^ 64 - 1

/-- MAX_IDX constant: highest bit index in a word. -/
def MAX_IDX : Nat := 63

/-- Number of binary digits of `w`, computed with explicit fuel so that it is
structurally recursive (kernel-reducible).  For `w < 2 ^ fuel` this is the
usual bit length. -/
def bitLen : Nat → Nat → Nat
  | 0, _ => 0
  | fuel + 1, w => if w = 0 then 0 else bitLen fuel (w / 2) + 1

/-- Model of `std::countl_zero` on a `uint64_t`: number of leading zero bits
of the 64-bit representation. -/
def countlZero (w : Nat) : Nat := 64 - bitLen 64 w

/-- Model of `word &= ~(1ULL << bit_idx)` on a 64-bit word: clear one bit.
`~(1ULL << b)` is the XOR of the all-ones word with `1 << b`. -/
def clearBitW (w b : Nat) : Nat := w &&& (FULLY_FREE ^^^ (1 <<< b))

/-- Model of `word |= (1ULL << bit_idx)` on a 64-bit word: set one bit. -/
def setBitW (w b : Nat) : Nat := w ||| (1 <<< b)

/-- Union record for the four bitmap structs of src/bitmap.h (see the header
comment of this file).  `words` is the word array (`getD _ 0` models an
in-bounds array read; all call sites are bounds-checked in the source).
Bit convention as in the source: 1 = free, 0 = allocated. -/
structure Bitmap where
  num_slots : Nat
  words : List Nat
  allocation_hint : Nat
  cas_retries : Nat

deriving instance DecidableEq, Repr for Bitmap

/-- `get_word_and_bit_index_from_slot_index` (identical in all four bitmap
structs): `{slot_idx >> WORD_SHIFT, slot_idx & WORD_MASK}`. -/
def get_word_and_bit_index_from_slot_index (slot_idx : Nat) : Nat × Nat :=
  (slot_idx >>> WORD_SHIFT, slot_idx &&& WORD_MASK)

/-- `get_slot_index_from_word_and_bit_index` (identical in all four bitmap
structs): `word_idx << WORD_SHIFT | bit_idx`. -/
def get_slot_index_from_word_and_bit_index (word_idx bit_idx : Nat) : Nat :=
  word_idx <<< WORD_SHIFT ||| bit_idx

/-- One scan loop of `allocate_one` (the same loop body appears in
`Bitmap::allocate_one`, `BitmapLockFree::allocate_one`,
`BitmapLockFreeHint::allocate_one` and `BitmapNoHint::allocate_one`):
starting at word `start`, walk `fuel` further words (the C++ loop runs while
`word_idx < stop`; here `fuel = stop - start`) looking for a word that is not
`FULLY_ALLOCATED`; in it choose bit `MAX_IDX - countl_zero(word)`.  The
C++ range check `bit_idx < 0 || bit_idx > 63` (`continue` when violated) is
kept although it can never fire for a nonzero 64-bit word.  Returns the word
index and bit index of the chosen free bit. -/
def scanWords (ws : List Nat) : Nat → Nat → Option (Nat × Nat)
  | _, 0 => none
  | start, fuel + 1 =>
    let word := ws.getD start 0
    if word ≠ FULLY_ALLOCATED then
      let bit_idx := MAX_IDX - countlZero word
      if 63 < bit_idx then scanWords ws (start + 1) fuel
      else some (start, bit_idx)
    else scanWords ws (start + 1) fuel

/-- Clearing the chosen bit: `words[word_idx] &= ~(1ULL << bit_idx)`
(common to all four `allocate_one` implementations). -/
def claimWord (b : Bitmap) (wi bi : Nat) : Bitmap :=
  { b with words := b.words.set wi (clearBitW (b.words.getD wi 0) bi) }

/-- `Bitmap::allocate_one` (src/bitmap.h lines 74-123), the variant used by
`Arena` and `ArenaSpinLock`: scan from `allocation_hint` to the end, then
wrap and scan from 0 to `allocation_hint`.  On success store the hint as the
source does: `(word_idx + 1) % words.size()` if the observed word was
`FULLY_ALLOCATED` (dead branch, kept for fidelity), else `word_idx`. -/
def Bitmap.allocate_one (b : Bitmap) : Option Nat × Bitmap :=
  match scanWords b.words b.allocation_hint (b.words.length - b.allocation_hint) with
  | some (wi, bi) =>
    let word := b.words.getD wi 0
    (some (get_slot_index_from_word_and_bit_index wi bi),
      { claimWord b wi bi with
        allocation_hint :=
          if word = FULLY_ALLOCATED then (wi + 1) % b.words.length else wi })
  | none =>
    match scanWords b.words 0 b.allocation_hint with
    | some (wi, bi) =>
      let word := b.words.getD wi 0
      (some (get_slot_index_from_word_and_bit_index wi bi),
        { claimWord b wi bi with
          allocation_hint :=
            if word = FULLY_ALLOCATED then (wi + 1) % b.words.length else wi })
    | none => (none, b)

/-- `Bitmap::free_slot` (src/bitmap.h lines 129-137): set the bit back to 1
and point the hint at the word just freed.  Returns 0 like the source. -/
def Bitmap.free_slot (slot_idx : Nat) (b : Bitmap) : Nat × Bitmap :=
  let wb := get_word_and_bit_index_from_slot_index slot_idx
  (0, { b with words := b.words.set wb.1 (setBitW (b.words.getD wb.1 0) wb.2),
               allocation_hint := wb.1 })

/-- `BitmapNoHint::allocate_one` (src/bitmap.h lines 433-446): always scan
from word 0, no hint. -/
def BitmapNoHint.allocate_one (b : Bitmap) : Option Nat × Bitmap :=
  match scanWords b.words 0 b.words.length with
  | some (wi, bi) =>
    (some (get_slot_index_from_word_and_bit_index wi bi), claimWord b wi bi)
  | none => (none, b)

/-- `BitmapNoHint::free_slot` (src/bitmap.h lines 452-457): set the bit,
return 0. -/
def BitmapNoHint.free_slot (slot_idx : Nat) (b : Bitmap) : Nat × Bitmap :=
  let wb := get_word_and_bit_index_from_slot_index slot_idx
  (0, { b with words := b.words.set wb.1 (setBitW (b.words.getD wb.1 0) wb.2) })

/-- `BitmapLockFree::allocate_one` (src/bitmap.h lines 212-257) in the
sequential semantics: the scan from word 0 observes the current word and the
compare-exchange succeeds on the first attempt, so the state transformation
coincides with `BitmapNoHint::allocate_one` and `cas_retries` is unchanged. -/
def BitmapLockFree.allocate_one (b : Bitmap) : Option Nat × Bitmap :=
  match scanWords b.words 0 b.words.length with
  | some (wi, bi) =>
    (some (get_slot_index_from_word_and_bit_index wi bi), claimWord b wi bi)
  | none => (none, b)

/-- `BitmapLockFree::free_slot` (src/bitmap.h lines 261-271):
`words[word_idx].fetch_or(1ULL << bit_idx)` and `return 0;` — note that it
returns 0 unconditionally, with no double-free or range check. -/
def BitmapLockFree.free_slot (slot_idx : Nat) (b : Bitmap) : Nat × Bitmap :=
  let wb := get_word_and_bit_index_from_slot_index slot_idx
  (0, { b with words := b.words.set wb.1 (setBitW (b.words.getD wb.1 0) wb.2) })

/-- `BitmapLockFreeHint::allocate_one` (src/bitmap.h lines 330-381):
`fetch_add(1)` on the shared `allocation_hint` counter, reduce the old value
modulo the word count (`& (num_words - 1)` when the word count is a power of
two — `num_words_is_pow2` is computed from the word count, so it is inlined
here), scan from there to the end, then wrap and scan from 0 to the start.
The hint counter is advanced exactly once per call, regardless of outcome. -/
def BitmapLockFreeHint.allocate_one (b : Bitmap) : Option Nat × Bitmap :=
  let old := b.allocation_hint
  let n := b.words.length
  let start_idx := if n &&& (n - 1) = 0 then old &&& (n - 1) else old % n
  let b1 : Bitmap := { b with allocation_hint := old + 1 }
  match scanWords b.words start_idx (n - start_idx) with
  | some (wi, bi) =>
    (some (get_slot_index_from_word_and_bit_index wi bi), claimWord b1 wi bi)
  | none =>
    match scanWords b.words 0 start_idx with
    | some (wi, bi) =>
      (some (get_slot_index_from_word_and_bit_index wi bi), claimWord b1 wi bi)
    | none => (none, b1)

/-- `BitmapLockFreeHint::free_slot` (src/bitmap.h lines 384-390): like
`BitmapLockFree::free_slot`, returns 0 unconditionally. -/
def BitmapLockFreeHint.free_slot (slot_idx : Nat) (b : Bitmap) : Nat × Bitmap :=
  let wb := get_word_and_bit_index_from_slot_index slot_idx
  (0, { b with words := b.words.set wb.1 (setBitW (b.words.getD wb.1 0) wb.2) })

/-- The four bitmap behaviour variants. -/
inductive BVariant where
  | plain
  | spinPlain
  | lockFree
  | lockFreeHint
  | noHint
  | noHintSpin
deriving DecidableEq

/-- Dispatch `allocate_one` over the bitmap variant used by each arena
variant (`Arena` and `ArenaSpinLock` use `Bitmap`; `ArenaNoHint` and
`ArenaNoHintSpinLock` use `BitmapNoHint`). -/
def BVariant.allocate_one : BVariant → Bitmap → Option Nat × Bitmap
  | .plain => Bitmap.allocate_one
  | .spinPlain => Bitmap.allocate_one
  | .lockFree => BitmapLockFree.allocate_one
  | .lockFreeHint => BitmapLockFreeHint.allocate_one
  | .noHint => BitmapNoHint.allocate_one
  | .noHintSpin => BitmapNoHint.allocate_one

/-- 16-bit two's complement increment (`slots_in_use.fetch_add(1)`). -/
def inc16 (c : Nat) : Nat := (c + 1) % 2 ^ 16

/-- 16-bit two's complement decrement (`slots_in_use.fetch_sub(1)`). -/
def dec16 (c : Nat) : Nat := (c + (2 ^ 16 - 1)) % 2 ^ 16

/-- Signed reading of a 16-bit pattern (`std::atomic_int16_t::load`). -/
def toInt16 (p : Nat) : Int := if p < 2 ^ 15 then (p : Int) else (p : Int) - 2 ^ 16

/-- Union record for the six arena structs (see the header comment).
`capacity` is the adjusted region size in bytes, `base` the address `mmap`
returned, `slots_in_use` the 16-bit pattern of the occupancy counter. -/
structure Arena where
  capacity : Nat
  base : Nat
  slot_size : Nat
  bitmap : Bitmap
  slots_in_use : Nat

deriving instance DecidableEq, Repr for Arena

/-- Slot-count computation shared verbatim by all six arena constructors
(e.g. `Arena::Arena`, src/arena_allocator.cpp lines 48-57):
`num_slots = (capacity + page_size - 1) / page_size`, floor at
`WORD_LENGTH`, then round up to the next multiple of `WORD_LENGTH`.
The operands are `size_t`, so every addition, subtraction and
multiplication wraps modulo `2 ^ 64`; the `% 2 ^ 64` reductions below sit
exactly where the source performs `size_t` arithmetic (`x - 1` on a
`size_t` is `(x + 2 ^ 64 - 1) % 2 ^ 64`). -/
def adjustedNumSlots (capacity page_size : Nat) : Nat :=
  let num_slots := ((capacity + page_size) % 2 ^ 64 + (2 ^ 64 - 1)) % 2 ^ 64 / page_size
  let num_slots := if num_slots < WORD_LENGTH then WORD_LENGTH else num_slots
  ((num_slots + WORD_LENGTH) % 2 ^ 64 + (2 ^ 64 - 1)) % 2 ^ 64 / WORD_LENGTH
    * WORD_LENGTH % 2 ^ 64

/-- Constructor, shared verbatim by all six arena variants
(src/arena_allocator.cpp lines 48-74, 147-168, 247-271, 344-362, 423-441,
510-529): adjust the slot count, set `capacity = num_slots * page_size`
(a `size_t` product, wrapping modulo `2 ^ 64`), build a bitmap with all
bits free (`FULLY_FREE` words) and hint 0, zero the occupancy counter.
`mmap` is modelled as returning the given `base`. -/
def Arena.create (capacity page_size base : Nat) : Arena :=
  let num_slots := adjustedNumSlots capacity page_size
  { capacity := num_slots * page_size % 2 ^ 64
    base := base
    slot_size := page_size
    bitmap :=
      { num_slots := num_slots
        words := List.replicate (num_slots / WORD_LENGTH) FULLY_FREE
        allocation_hint := 0
        cas_retries := 0 }
    slots_in_use := 0 }

/-- The `allocate` body shared verbatim by all six arena variants
(e.g. `Arena::allocate`, src/arena_allocator.cpp lines 86-105), parameterised
by the bitmap variant's `allocate_one`: `size == 0` returns `NULL`;
`slots_required = (size + slot_size - 1) / slot_size`; only
`slots_required == 1` is supported; on a successful bitmap claim the result
is `base + slot_size * slot_idx` and `slots_in_use` is incremented. -/
def allocateWith (bmAlloc : Bitmap → Option Nat × Bitmap) (size : Nat) (a : Arena) :
    Option Nat × Arena :=
  if size = 0 then (none, a)
  else
    let slots_required := (size + a.slot_size - 1) / a.slot_size
    if slots_required = 1 then
      match bmAlloc a.bitmap with
      | (some slot_idx, bm) =>
        (some (a.base + a.slot_size * slot_idx),
          { a with bitmap := bm, slots_in_use := inc16 a.slots_in_use })
      | (none, bm) => (none, { a with bitmap := bm })
    else (none, a)

/-- The `free` body of the checked variants (`Arena::free`,
src/arena_allocator.cpp lines 107-144; `ArenaSpinLock::free` lines 203-238;
`ArenaNoHint::free` lines 475-507; `ArenaNoHintSpinLock::free` lines
565-596), parameterised by the bitmap variant's `free_slot`: `NULL` pointer
or zero size, out-of-region pointer, misaligned pointer, multi-slot size and
out-of-range slot are no-ops; then the slot's bit is tested
(`words[word_idx] & (1ULL << bit_idx)`) and a set bit (already free, i.e. a
double free) is a no-op; otherwise `free_slot` runs and `slots_in_use` is
decremented. -/
def freeChecked (bmFree : Nat → Bitmap → Nat × Bitmap) (ptr : Option Nat) (size : Nat)
    (a : Arena) : Arena :=
  match ptr with
  | none => a
  | some p =>
    if size = 0 then a
    else if p < a.base then a
    else if a.base + a.capacity ≤ p then a
    else
      let offset := p - a.base
      if offset % a.slot_size ≠ 0 then a
      else
        let start_slot := offset / a.slot_size
        let slots_to_free := (size + a.slot_size - 1) / a.slot_size
        if slots_to_free ≠ 1 then a
        else if a.bitmap.num_slots ≤ start_slot then a
        else
          let wb := get_word_and_bit_index_from_slot_index start_slot
          if a.bitmap.words.getD wb.1 0 &&& (1 <<< wb.2) ≠ 0 then a
          else
            { a with bitmap := (bmFree start_slot a.bitmap).2,
                     slots_in_use := dec16 a.slots_in_use }

/-- The `free` body of the lock-free variants (`ArenaLockFree::free`,
src/arena_allocator.cpp lines 310-341; `ArenaLockFreeHint::free` lines
394-420), parameterised by the bitmap variant's `free_slot`: the same
pointer validity checks, then `free_slot` runs unconditionally and
`slots_in_use` is decremented when its return code is 0 (which for
`BitmapLockFree::free_slot` / `BitmapLockFreeHint::free_slot` is always). -/
def freeLockFree (bmFree : Nat → Bitmap → Nat × Bitmap) (ptr : Option Nat) (size : Nat)
    (a : Arena) : Arena :=
  match ptr with
  | none => a
  | some p =>
    if size = 0 then a
    else if p < a.base then a
    else if a.base + a.capacity ≤ p then a
    else
      let offset := p - a.base
      if offset % a.slot_size ≠ 0 then a
      else
        let start_slot := offset / a.slot_size
        let slots_to_free := (size + a.slot_size - 1) / a.slot_size
        if slots_to_free ≠ 1 then a
        else if a.bitmap.num_slots ≤ start_slot then a
        else
          let rcb := bmFree start_slot a.bitmap
          if rcb.1 = 0 then
            { a with bitmap := rcb.2, slots_in_use := dec16 a.slots_in_use }
          else
            { a with bitmap := rcb.2 }

/-- `Arena::allocate` (mutex-protected, src/arena_allocator.cpp 86-105). -/
def Arena.allocate (size : Nat) (a : Arena) : Option Nat × Arena :=
  allocateWith Bitmap.allocate_one size a

/-- `Arena::free` (mutex-protected, src/arena_allocator.cpp 107-144). -/
def Arena.free (ptr : Option Nat) (size : Nat) (a : Arena) : Arena :=
  freeChecked Bitmap.free_slot ptr size a

/-- `ArenaSpinLock::allocate` (src/arena_allocator.cpp 180-201): the body is
that of `Arena::allocate` with the mutex replaced by a spin lock, so its
sequential semantics is the same function. -/
def ArenaSpinLock.allocate (size : Nat) (a : Arena) : Option Nat × Arena :=
  allocateWith Bitmap.allocate_one size a

/-- `ArenaSpinLock::free` (src/arena_allocator.cpp 203-238): same sequential
semantics as `Arena::free`. -/
def ArenaSpinLock.free (ptr : Option Nat) (size : Nat) (a : Arena) : Arena :=
  freeChecked Bitmap.free_slot ptr size a

/-- `ArenaLockFree::allocate` (src/arena_allocator.cpp 286-306). -/
def ArenaLockFree.allocate (size : Nat) (a : Arena) : Option Nat × Arena :=
  allocateWith BitmapLockFree.allocate_one size a

/-- `ArenaLockFree::free` (src/arena_allocator.cpp 310-341). -/
def ArenaLockFree.free (ptr : Option Nat) (size : Nat) (a : Arena) : Arena :=
  freeLockFree BitmapLockFree.free_slot ptr size a

/-- `ArenaLockFreeHint::allocate` (src/arena_allocator.cpp 374-392). -/
def ArenaLockFreeHint.allocate (size : Nat) (a : Arena) : Option Nat × Arena :=
  allocateWith BitmapLockFreeHint.allocate_one size a

/-- `ArenaLockFreeHint::free` (src/arena_allocator.cpp 394-420). -/
def ArenaLockFreeHint.free (ptr : Option Nat) (size : Nat) (a : Arena) : Arena :=
  freeLockFree BitmapLockFreeHint.free_slot ptr size a

/-- `ArenaNoHint::allocate` (src/arena_allocator.cpp 453-473). -/
def ArenaNoHint.allocate (size : Nat) (a : Arena) : Option Nat × Arena :=
  allocateWith BitmapNoHint.allocate_one size a

/-- `ArenaNoHint::free` (src/arena_allocator.cpp 475-507). -/
def ArenaNoHint.free (ptr : Option Nat) (size : Nat) (a : Arena) : Arena :=
  freeChecked BitmapNoHint.free_slot ptr size a

/-- `ArenaNoHintSpinLock::allocate` (src/arena_allocator.cpp 541-563): same
sequential semantics as `ArenaNoHint::allocate`. -/
def ArenaNoHintSpinLock.allocate (size : Nat) (a : Arena) : Option Nat × Arena :=
  allocateWith BitmapNoHint.allocate_one size a

/-- `ArenaNoHintSpinLock::free` (src/arena_allocator.cpp 565-596): same
sequential semantics as `ArenaNoHint::free`. -/
def ArenaNoHintSpinLock.free (ptr : Option Nat) (size : Nat) (a : Arena) : Arena :=
  freeChecked BitmapNoHint.free_slot ptr size a

/-- The six arena variants of the source. -/
inductive AVariant where
  | mutex
  | spin
  | lockFree
  | lockFreeHint
  | noHint
  | noHintSpin
deriving DecidableEq

/-- Bitmap variant used by each arena variant. -/
def AVariant.bv : AVariant → BVariant
  | .mutex => .plain
  | .spin => .spinPlain
  | .lockFree => .lockFree
  | .lockFreeHint => .lockFreeHint
  | .noHint => .noHint
  | .noHintSpin => .noHintSpin

/-- `allocate` of each arena variant. -/
def AVariant.allocate : AVariant → Nat → Arena → Option Nat × Arena
  | .mutex => Arena.allocate
  | .spin => ArenaSpinLock.allocate
  | .lockFree => ArenaLockFree.allocate
  | .lockFreeHint => ArenaLockFreeHint.allocate
  | .noHint => ArenaNoHint.allocate
  | .noHintSpin => ArenaNoHintSpinLock.allocate

/-- `free` of each arena variant. -/
def AVariant.free : AVariant → Option Nat → Nat → Arena → Arena
  | .mutex => Arena.free
  | .spin => ArenaSpinLock.free
  | .lockFree => ArenaLockFree.free
  | .lockFreeHint => ArenaLockFreeHint.free
  | .noHint => ArenaNoHint.free
  | .noHintSpin => ArenaNoHintSpinLock.free

/-- Starting word index of the scan of each bitmap variant's
`allocate_one`: 0 for the no-hint and plain lock-free variants, the stored
hint for the `Bitmap` variant, and the atomically fetched counter reduced
modulo the word count for the lock-free hint variant. -/
def scanStart : BVariant → Bitmap → Nat
  | .plain, b => b.allocation_hint
  | .spinPlain, b => b.allocation_hint
  | .lockFree, _ => 0
  | .noHint, _ => 0
  | .noHintSpin, _ => 0
  | .lockFreeHint, b =>
    if b.words.length &&& (b.words.length - 1) = 0 then
      b.allocation_hint &&& (b.words.length - 1)
    else b.allocation_hint % b.words.length

/-- Circular distance between two word indices of an `n`-word bitmap. -/
def circDist (n x y : Nat) : Nat := min ((x + n - y) % n) ((y + n - x) % n)

/-- Every word of the bitmap is a 64-bit value. -/
def wordsOk (ws : List Nat) : Prop := ∀ w ∈ ws, w < 2 ^ 64

/-- Well-formedness of a bitmap state, as established by the constructors:
the word array covers exactly `num_slots` bits and is nonempty. -/
def bitmapWf (b : Bitmap) : Prop :=
  b.words.length * 64 = b.num_slots ∧ wordsOk b.words ∧ 0 < b.words.length

/-- Variant-specific hint invariant: for the `Bitmap` used by `Arena` /
`ArenaSpinLock` the stored hint never exceeds the word count (the source
only ever stores `word_idx`, `(word_idx + 1) % words.size()` or 0); the
other variants need no bound (`BitmapLockFreeHint` reduces its unbounded
counter modulo the word count on use). -/
def bhintOk : BVariant → Bitmap → Prop
  | .plain, b => b.allocation_hint ≤ b.words.length
  | .spinPlain, b => b.allocation_hint ≤ b.words.length
  | _, _ => True

/-- Well-formedness of an arena state, as established by the constructors. -/
def arenaWf (a : Arena) : Prop :=
  0 < a.slot_size ∧ a.capacity = a.bitmap.num_slots * a.slot_size ∧
    bitmapWf a.bitmap ∧ a.slots_in_use < 2 ^ 16

/-- Arena well-formedness together with the variant's hint invariant. -/
def arenaWfV (v : AVariant) (a : Arena) : Prop :=
  arenaWf a ∧ bhintOk v.bv a.bitmap

/-- Bit `i % 64` of word `i / 64`: whether slot `i` is free (bit = 1). -/
def slotFree (ws : List Nat) (i : Nat) : Bool :=
  (ws.getD (i / 64) 0).testBit (i % 64)

/-- The set of free slot indices of a bitmap. -/
def freeIdxSet (b : Bitmap) : Finset Nat :=
  (Finset.range b.num_slots).filter (fun i => slotFree b.words i = true)

/-- Run a list of `allocate` calls, collecting the returned pointers. -/
def runAllocs (v : AVariant) : List Nat → Arena → List (Option Nat) × Arena
  | [], a => ([], a)
  | size :: rest, a =>
    let r := v.allocate size a
    let rr := runAllocs v rest r.2
    (r.1 :: rr.1, rr.2)

/-- A call against the public API: an `allocate(size)` or a
`free(ptr, size)`. -/
inductive ArenaOp where
  | alloc : Nat → ArenaOp
  | dealloc : Option Nat → Nat → ArenaOp
deriving DecidableEq

/-- Run a list of API calls. -/
def runOps (v : AVariant) : List ArenaOp → Arena → Arena
  | [], a => a
  | .alloc size :: rest, a => runOps v rest (v.allocate size a).2
  | .dealloc p size :: rest, a => runOps v rest (v.free p size a)

/-- Number of successful `allocate` calls (those returning non-`NULL`) in a
run. -/
def succAllocs (v : AVariant) : List ArenaOp → Arena → Nat
  | [], _ => 0
  | .alloc size :: rest, a =>
    (if (v.allocate size a).1.isSome then 1 else 0) + succAllocs v rest (v.allocate size a).2
  | .dealloc p size :: rest, a => succAllocs v rest (v.free p size a)

/-- Number of successful `free` calls in a run: those that performed the
release and decremented the counter (i.e. changed `slots_in_use`). -/
def succFrees (v : AVariant) : List ArenaOp → Arena → Nat
  | [], _ => 0
  | .alloc size :: rest, a => succFrees v rest (v.allocate size a).2
  | .dealloc p size :: rest, a =>
    (if (v.free p size a).slots_in_use ≠ a.slots_in_use then 1 else 0) +
      succFrees v rest (v.free p size a)

/-- Postcondition of a successful slot claim: the returned index was a free
slot in range, and exactly that slot's bit was cleared. -/
def claimedPost (b b' : Bitmap) (idx : Nat) : Prop :=
  idx < b.num_slots ∧ slotFree b.words idx = true ∧
    (∀ j, slotFree b'.words j = (slotFree b.words j && !(decide (j = idx)))) ∧
    b'.num_slots = b.num_slots ∧ b'.words.length = b.words.length

/-! Decidability of the invariants (used to discharge hypotheses on concrete
states). -/

instance (ws : List Nat) : Decidable (wordsOk ws) :=
  inferInstanceAs (Decidable (∀ w ∈ ws, w < 2 ^ 64))

instance (b : Bitmap) : Decidable (bitmapWf b) :=
  inferInstanceAs (Decidable (b.words.length * 64 = b.num_slots ∧ wordsOk b.words ∧
    0 < b.words.length))

instance (v : BVariant) (b : Bitmap) : Decidable (bhintOk v b) :=
  match v with
  | .plain => inferInstanceAs (Decidable (b.allocation_hint ≤ b.words.length))
  | .spinPlain => inferInstanceAs (Decidable (b.allocation_hint ≤ b.words.length))
  | .lockFree => inferInstanceAs (Decidable True)
  | .lockFreeHint => inferInstanceAs (Decidable True)
  | .noHint => inferInstanceAs (Decidable True)
  | .noHintSpin => inferInstanceAs (Decidable True)

instance (a : Arena) : Decidable (arenaWf a) :=
  inferInstanceAs (Decidable (0 < a.slot_size ∧ a.capacity = a.bitmap.num_slots * a.slot_size ∧
    bitmapWf a.bitmap ∧ a.slots_in_use < 2 ^ 16))

instance (v : AVariant) (a : Arena) : Decidable (arenaWfV v a) :=
  inferInstanceAs (Decidable (arenaWf a ∧ bhintOk v.bv a.bitmap))

/-! Word-level lemmas: bit length, leading zeros, clearing and setting bits. -/

theorem bitLen_zero (fuel : Nat) : bitLen fuel 0 = 0 := by
  cases fuel <;> simp [bitLen]

theorem bitLen_spec : ∀ (fuel w : Nat), 0 < w → w < 2 ^ fuel →
    2 ^ (bitLen fuel w - 1) ≤ w ∧ w < 2 ^ bitLen fuel w ∧
      0 < bitLen fuel w ∧ bitLen fuel w ≤ fuel := by
  intro fuel
  induction fuel with
  | zero => intro w hw hlt; simp at hlt; omega
  | succ f ih =>
    intro w hw hlt
    have hwne : w ≠ 0 := Nat.pos_iff_ne_zero.mp hw
    simp only [bitLen, hwne, if_false]
    by_cases h2 : w / 2 = 0
    · have hw1 : w = 1 := by omega
      subst hw1
      simp [bitLen_zero]
    · have hdiv : 0 < w / 2 := Nat.pos_of_ne_zero h2
      have hdlt : w / 2 < 2 ^ f := by
        have := Nat.pow_succ 2 f
        omega
      obtain ⟨ihl, ihr, ihpos, ihle⟩ := ih (w / 2) hdiv hdlt
      refine ⟨?_, ?_, by omega, by omega⟩
      · have h1 : 2 ^ (bitLen f (w / 2) + 1 - 1) = 2 * 2 ^ (bitLen f (w / 2) - 1) := by
          have : bitLen f (w / 2) + 1 - 1 = (bitLen f (w / 2) - 1) + 1 := by omega
          rw [this, Nat.pow_succ]; ring
        omega
      · have h1 : 2 ^ (bitLen f (w / 2) + 1) = 2 * 2 ^ bitLen f (w / 2) := by
          rw [Nat.pow_succ]; ring
        omega

/-- For a nonzero 64-bit word, `MAX_IDX - countl_zero(word)` is the bit
length minus one. -/
theorem hiBit_eq (w : Nat) (hw : 0 < w) (hlt : w < 2 ^ 64) :
    MAX_IDX - countlZero w = bitLen 64 w - 1 := by
  obtain ⟨-, -, hpos, hle⟩ := bitLen_spec 64 w hw hlt
  simp only [MAX_IDX, countlZero]
  omega

theorem testBit_of_pow_le_lt {m k : Nat} (h1 : 2 ^ k ≤ m) (h2 : m < 2 ^ (k + 1)) :
    m.testBit k = true := by
  rw [Nat.testBit_to_div_mod]
  have h3 : m / 2 ^ k = 1 := by
    apply Nat.div_eq_of_lt_le (by simpa using h1)
    have : (1 + 1) * 2 ^ k = 2 ^ (k + 1) := by rw [Nat.pow_succ]; ring
    omega
  simp [h3]

/-- The bit chosen by the scan (`MAX_IDX - countl_zero(word)`) is set in a
nonzero 64-bit word. -/
theorem hiBit_testBit (w : Nat) (hw : 0 < w) (hlt : w < 2 ^ 64) :
    w.testBit (MAX_IDX - countlZero w) = true := by
  rw [hiBit_eq w hw hlt]
  obtain ⟨hl, hr, hpos, -⟩ := bitLen_spec 64 w hw hlt
  have hsucc : bitLen 64 w - 1 + 1 = bitLen 64 w := by omega
  exact testBit_of_pow_le_lt hl (by rw [hsucc]; exact hr)

theorem hiBit_le (w : Nat) : MAX_IDX - countlZero w ≤ 63 := by
  simp only [MAX_IDX]; omega

theorem hiBit_lt_64 (w : Nat) : MAX_IDX - countlZero w < 64 := by
  have := hiBit_le w; omega

theorem clearBitW_lt (w b : Nat) (hw : w < 2 ^ 64) : clearBitW w b < 2 ^ 64 :=
  lt_of_le_of_lt Nat.and_le_left hw

theorem testBit_clearBitW (w b : Nat) (hw : w < 2 ^ 64) (hb : b < 64) (j : Nat) :
    (clearBitW w b).testBit j = (w.testBit j && !(decide (j = b))) := by
  simp only [clearBitW, FULLY_FREE, Nat.testBit_and, Nat.testBit_xor,
    Nat.shiftLeft_eq, one_mul, Nat.testBit_two_pow_sub_one, Nat.testBit_two_pow]
  by_cases hj : j < 64
  · by_cases hjb : j = b
    · subst hjb; simp [hj]
    · have hbj : b ≠ j := fun h => hjb h.symm
      simp [hj, hjb, hbj]
  · have hwj : w.testBit j = false := by
      apply Nat.testBit_lt_two_pow
      exact lt_of_lt_of_le hw (Nat.pow_le_pow_right (by norm_num) (by omega))
    simp [hwj]

theorem setBitW_lt (w b : Nat) (hw : w < 2 ^ 64) (hb : b < 64) : setBitW w b < 2 ^ 64 := by
  apply Nat.or_lt_two_pow hw
  rw [Nat.shiftLeft_eq, one_mul]
  exact Nat.pow_lt_pow_right (by norm_num) hb

theorem testBit_setBitW (w b : Nat) (j : Nat) :
    (setBitW w b).testBit j = (w.testBit j || decide (j = b)) := by
  simp only [setBitW, Nat.testBit_or, Nat.shiftLeft_eq, one_mul, Nat.testBit_two_pow]
  have hd : decide (b = j) = decide (j = b) := by
    by_cases hjb : j = b
    · subst hjb; rfl
    · have hbj : b ≠ j := fun h => hjb h.symm
      simp [hjb, hbj]
  rw [hd]

/-- Setting a bit that is already set leaves the word unchanged
(the lock-free `fetch_or` on an already-free slot). -/
theorem setBitW_eq_self (w b : Nat) (h : w.testBit b = true) : setBitW w b = w := by
  apply Nat.eq_of_testBit_eq
  intro j
  rw [testBit_setBitW]
  by_cases hjb : j = b <;> simp [hjb, h]

/-- The double-free test `words[word_idx] & (1ULL << bit_idx)` is nonzero
exactly when the bit is set. -/
theorem and_shift_ne_zero_iff (w b : Nat) : (w &&& (1 <<< b) ≠ 0) ↔ w.testBit b = true := by
  rw [Nat.shiftLeft_eq, one_mul, Nat.and_two_pow]
  cases h : w.testBit b <;> simp [h, Nat.pos_iff_ne_zero.mp (Nat.two_pow_pos b)]

/-! Index arithmetic: the slot ⇄ (word, bit) conversions. -/

theorem word_bit_index_eq (i : Nat) :
    get_word_and_bit_index_from_slot_index i = (i / 64, i % 64) := by
  simp only [get_word_and_bit_index_from_slot_index, WORD_SHIFT, WORD_MASK,
    Prod.mk.injEq]
  refine ⟨?_, ?_⟩
  · rw [Nat.shiftRight_eq_div_pow]
  · have h : (63 : Nat) = 2 ^ 6 - 1 := by norm_num
    rw [h, Nat.and_pow_two_sub_one_eq_mod]

theorem slot_index_eq (wi bi : Nat) (hb : bi < 64) :
    get_slot_index_from_word_and_bit_index wi bi = 64 * wi + bi := by
  simp only [get_slot_index_from_word_and_bit_index, WORD_SHIFT]
  have hmod : (wi <<< 6 ||| bi) &&& 63 = bi := by
    apply Nat.eq_of_testBit_eq
    intro j
    have h63 : (63 : Nat) = 2 ^ 6 - 1 := by norm_num
    simp only [Nat.testBit_and, Nat.testBit_or, Nat.testBit_shiftLeft, h63,
      Nat.testBit_two_pow_sub_one]
    by_cases hj : j < 6
    · have : ¬ (j ≥ 6) := by omega
      simp [this, hj]
    · have hbj : bi.testBit j = false := by
        apply Nat.testBit_lt_two_pow
        have h26 : (64 : Nat) = 2 ^ 6 := by norm_num
        exact lt_of_lt_of_le (h26 ▸ hb) (Nat.pow_le_pow_right (by norm_num) (by omega))
      simp [hbj, hj]
  have hdiv : (wi <<< 6 ||| bi) >>> 6 = wi := by
    apply Nat.eq_of_testBit_eq
    intro j
    rw [Nat.testBit_shiftRight]
    have hbj : bi.testBit (6 + j) = false := by
      apply Nat.testBit_lt_two_pow
      have h26 : (64 : Nat) = 2 ^ 6 := by norm_num
      exact lt_of_lt_of_le (h26 ▸ hb) (Nat.pow_le_pow_right (by norm_num) (by omega))
    simp [Nat.testBit_or, Nat.testBit_shiftLeft, hbj]
  have hdm := Nat.div_add_mod (wi <<< 6 ||| bi) 64
  rw [Nat.shiftRight_eq_div_pow] at hdiv
  have h64 : (2 : Nat) ^ 6 = 64 := by norm_num
  rw [h64] at hdiv
  have h63 : (63 : Nat) = 2 ^ 6 - 1 := by norm_num
  rw [h63, Nat.and_pow_two_sub_one_eq_mod, h64] at hmod
  omega

/-! Lemmas about the scan loop. -/

theorem scanWords_some : ∀ (fuel start : Nat) (ws : List Nat) (wi bi : Nat),
    scanWords ws start fuel = some (wi, bi) →
    start ≤ wi ∧ wi < start + fuel ∧ ws.getD wi 0 ≠ 0 ∧
      bi = MAX_IDX - countlZero (ws.getD wi 0) ∧
      ∀ j, start ≤ j → j < wi → ws.getD j 0 = 0 := by
  intro fuel
  induction fuel with
  | zero => intro start ws wi bi h; simp [scanWords] at h
  | succ f ih =>
    intro start ws wi bi h
    by_cases hw : ws.getD start 0 = 0
    · simp only [scanWords, FULLY_ALLOCATED, hw, ne_eq, not_true_eq_false,
        if_false, ite_false] at h
      obtain ⟨h1, h2, h3, h4, h5⟩ := ih (start + 1) ws wi bi h
      refine ⟨by omega, by omega, h3, h4, ?_⟩
      intro j hj1 hj2
      rcases Nat.eq_or_lt_of_le hj1 with heq | hlt
      · rw [← heq]; exact hw
      · exact h5 j hlt hj2
    · have hb : ¬ (63 < MAX_IDX - countlZero (ws.getD start 0)) := by
        have := hiBit_le (ws.getD start 0); omega
      simp only [scanWords, FULLY_ALLOCATED, hw, ne_eq, not_false_eq_true,
        if_true, hb, if_false, ite_false, Option.some.injEq, Prod.mk.injEq] at h
      obtain ⟨h1, h2⟩ := h
      subst h1; subst h2
      exact ⟨le_refl _, by omega, hw, rfl, fun j hj1 hj2 => by omega⟩

theorem scanWords_none : ∀ (fuel start : Nat) (ws : List Nat),
    scanWords ws start fuel = none ↔
      ∀ j, start ≤ j → j < start + fuel → ws.getD j 0 = 0 := by
  intro fuel
  induction fuel with
  | zero => intro start ws; simp [scanWords]; intro j h1 h2; omega
  | succ f ih =>
    intro start ws
    by_cases hw : ws.getD start 0 = 0
    · simp only [scanWords, FULLY_ALLOCATED, hw, ne_eq, not_true_eq_false,
        if_false, ite_false]
      rw [ih (start + 1) ws]
      constructor
      · intro h j hj1 hj2
        rcases Nat.eq_or_lt_of_le hj1 with heq | hlt
        · rw [← heq]; exact hw
        · exact h j hlt (by omega)
      · intro h j hj1 hj2
        exact h j (by omega) (by omega)
    · have hb : ¬ (63 < MAX_IDX - countlZero (ws.getD start 0)) := by
        have := hiBit_le (ws.getD start 0); omega
      simp only [scanWords, FULLY_ALLOCATED, hw, ne_eq, not_false_eq_true,
        if_true, hb, if_false, ite_false]
      constructor
      · intro h; exact absurd h (by simp)
      · intro h
        exact absurd (h start (le_refl _) (by omega)) hw

/-! Helpers for list reads and `slotFree`. -/

theorem getD_set_self (ws : List Nat) (i x : Nat) (h : i < ws.length) :
    (ws.set i x).getD i 0 = x := by
  rw [List.getD_eq_getElem?_getD, List.getElem?_set]
  simp [h]

theorem getD_set_ne (ws : List Nat) (i j x : Nat) (h : i ≠ j) :
    (ws.set i x).getD j 0 = ws.getD j 0 := by
  rw [List.getD_eq_getElem?_getD, List.getElem?_set_ne h, ← List.getD_eq_getElem?_getD]

theorem getD_eq_getElem (ws : List Nat) (j : Nat) (h : j < ws.length) :
    ws.getD j 0 = ws[j] := by
  rw [List.getD_eq_getElem?_getD, List.getElem?_eq_getElem h]; rfl

theorem wordsOk_getD (ws : List Nat) (h : wordsOk ws) (i : Nat) : ws.getD i 0 < 2 ^ 64 := by
  by_cases hi : i < ws.length
  · rw [getD_eq_getElem ws i hi]
    exact h _ (List.getElem_mem hi)
  · rw [List.getD_eq_getElem?_getD, List.getElem?_eq_none (by omega)]
    exact Nat.two_pow_pos 64

theorem wordsOk_set (ws : List Nat) (h : wordsOk ws) (i x : Nat) (hx : x < 2 ^ 64) :
    wordsOk (ws.set i x) := by
  intro w hw
  rcases List.mem_or_eq_of_mem_set hw with hmem | heq
  · exact h w hmem
  · rw [heq]; exact hx

theorem slotFree_eq_false_of_zero (ws : List Nat) (j : Nat)
    (h : ws.getD (j / 64) 0 = 0) : slotFree ws j = false := by
  unfold slotFree
  rw [h]
  exact Nat.zero_testBit _

/-- A free slot below `num_slots` exhibits a nonzero word in range. -/
theorem nonzero_word_of_slotFree (b : Bitmap) (hwf : bitmapWf b) (i : Nat)
    (hi : i < b.num_slots) (hfree : slotFree b.words i = true) :
    i / 64 < b.words.length ∧ b.words.getD (i / 64) 0 ≠ 0 := by
  obtain ⟨hlen, hok, hpos⟩ := hwf
  refine ⟨by omega, ?_⟩
  intro hz
  rw [slotFree_eq_false_of_zero b.words i hz] at hfree
  exact absurd hfree (by simp)

/-- Conversely, a nonzero word in range exhibits a free slot below
`num_slots`. -/
theorem slotFree_of_nonzero_word (b : Bitmap) (hwf : bitmapWf b) (wi : Nat)
    (hwi : wi < b.words.length) (hw : b.words.getD wi 0 ≠ 0) :
    ∃ i, i < b.num_slots ∧ slotFree b.words i = true := by
  obtain ⟨hlen, hok, hpos⟩ := hwf
  set w := b.words.getD wi 0 with hwdef
  have hwpos : 0 < w := Nat.pos_of_ne_zero hw
  have hwlt : w < 2 ^ 64 := wordsOk_getD b.words hok wi
  set bi := MAX_IDX - countlZero w with hbidef
  have hbi : bi < 64 := hiBit_lt_64 w
  refine ⟨64 * wi + bi, by omega, ?_⟩
  have hd : (64 * wi + bi) / 64 = wi := by omega
  have hm : (64 * wi + bi) % 64 = bi := by omega
  simp only [slotFree, hd, hm, ← hwdef]
  exact hiBit_testBit w hwpos hwlt

theorem slotFree_claimWord_words (ws : List Nat) (hok : wordsOk ws) (wi bi : Nat)
    (hwi : wi < ws.length) (hbi : bi < 64) (j : Nat) :
    slotFree (ws.set wi (clearBitW (ws.getD wi 0) bi)) j =
      (slotFree ws j && !(decide (j = 64 * wi + bi))) := by
  by_cases hj : j / 64 = wi
  · have hw : ws.getD wi 0 < 2 ^ 64 := wordsOk_getD ws hok wi
    have hiff : (j % 64 = bi) ↔ (j = 64 * wi + bi) := by omega
    have hdec : decide (j % 64 = bi) = decide (j = 64 * wi + bi) :=
      decide_eq_decide.mpr hiff
    unfold slotFree
    rw [hj, getD_set_self ws wi _ hwi, testBit_clearBitW _ _ hw hbi, hdec]
  · have hne : decide (j = 64 * wi + bi) = false := by
      rw [decide_eq_false_iff_not]
      omega
    unfold slotFree
    rw [getD_set_ne ws wi (j / 64) _ (fun h => hj h.symm), hne]
    simp

theorem all_words_zero (ws : List Nat) (h : ∀ j, j < ws.length → ws.getD j 0 = 0) :
    ∀ w ∈ ws, w = 0 := by
  intro w hw
  obtain ⟨n, hn, rfl⟩ := List.mem_iff_getElem.mp hw
  rw [← getD_eq_getElem _ _ hn]
  exact h n hn

/-- Core of every variant's successful claim: the scan found word `wi`
containing a nonzero value; the chosen bit is cleared and the returned index
is in range. -/
theorem claim_core (b : Bitmap) (hwf : bitmapWf b) (wi : Nat)
    (hwi : wi < b.words.length) (hw : b.words.getD wi 0 ≠ 0) :
    claimedPost b (claimWord b wi (MAX_IDX - countlZero (b.words.getD wi 0)))
        (get_slot_index_from_word_and_bit_index wi
          (MAX_IDX - countlZero (b.words.getD wi 0))) ∧
      bitmapWf (claimWord b wi (MAX_IDX - countlZero (b.words.getD wi 0))) := by
  obtain ⟨hlen, hok, hpos⟩ := hwf
  have hbi : MAX_IDX - countlZero (b.words.getD wi 0) < 64 :=
    hiBit_lt_64 (b.words.getD wi 0)
  have hwpos : 0 < b.words.getD wi 0 := Nat.pos_of_ne_zero hw
  have hwlt : b.words.getD wi 0 < 2 ^ 64 := wordsOk_getD b.words hok wi
  have hidx := slot_index_eq wi (MAX_IDX - countlZero (b.words.getD wi 0)) hbi
  rw [hidx]
  have hfree : slotFree b.words (64 * wi + (MAX_IDX - countlZero (b.words.getD wi 0))) = true := by
    have hd : (64 * wi + (MAX_IDX - countlZero (b.words.getD wi 0))) / 64 = wi := by omega
    have hm : (64 * wi + (MAX_IDX - countlZero (b.words.getD wi 0))) % 64 =
        MAX_IDX - countlZero (b.words.getD wi 0) := by omega
    simp only [slotFree, hd, hm]
    exact hiBit_testBit _ hwpos hwlt
  refine ⟨⟨by omega, hfree,
      fun j => slotFree_claimWord_words b.words hok wi _ hwi hbi j, rfl, ?_⟩, ?_, ?_, ?_⟩
  · simp [claimWord]
  · simp only [claimWord, List.length_set]
    exact hlen
  · exact wordsOk_set _ hok _ _ (clearBitW_lt _ _ hwlt)
  · simp only [claimWord, List.length_set]
    exact hpos

/-- Changing only the hint does not affect `claimedPost` (which speaks about
words and slot counts only). -/
theorem claimedPost_hint (b b' : Bitmap) (idx h' : Nat) (hp : claimedPost b b' idx) :
    claimedPost b { b' with allocation_hint := h' } idx := by
  obtain ⟨a1, a2, a3, a4, a5⟩ := hp
  exact ⟨a1, a2, a3, a4, a5⟩

theorem claimedPost_base_hint (b : Bitmap) (x : Nat) (b' : Bitmap) (idx : Nat)
    (hp : claimedPost { b with allocation_hint := x } b' idx) : claimedPost b b' idx := by
  obtain ⟨a1, a2, a3, a4, a5⟩ := hp
  exact ⟨a1, a2, a3, a4, a5⟩

theorem bitmapWf_hint (b : Bitmap) (h' : Nat) (h : bitmapWf b) :
    bitmapWf { b with allocation_hint := h' } := by
  obtain ⟨a1, a2, a3⟩ := h
  exact ⟨a1, a2, a3⟩

theorem bitmapWf_base_hint (b : Bitmap) (h' : Nat)
    (h : bitmapWf { b with allocation_hint := h' }) : bitmapWf b := by
  obtain ⟨a1, a2, a3⟩ := h
  exact ⟨a1, a2, a3⟩

/-- Specification of a successful `allocate_one` for every bitmap variant. -/
theorem bv_allocate_one_some (v : BVariant) (b : Bitmap) (idx : Nat) (b' : Bitmap)
    (hwf : bitmapWf b) (hh : bhintOk v b)
    (h : v.allocate_one b = (some idx, b')) :
    claimedPost b b' idx ∧ bitmapWf b' ∧ bhintOk v b' := by
  have hpos : 0 < b.words.length := hwf.2.2
  cases v
  case plain | spinPlain =>
    simp only [BVariant.allocate_one] at h
    unfold Bitmap.allocate_one at h
    rcases hs1 : scanWords b.words b.allocation_hint (b.words.length - b.allocation_hint)
      with _ | ⟨wi, bi⟩
    · rw [hs1] at h
      simp only at h
      rcases hs2 : scanWords b.words 0 b.allocation_hint with _ | ⟨wi, bi⟩
      · rw [hs2] at h
        simp at h
      · rw [hs2] at h
        obtain ⟨h1, hw2, hw3, hbi, -⟩ := scanWords_some _ _ _ _ _ hs2
        simp only [FULLY_ALLOCATED, if_neg hw3, Option.some.injEq, Prod.mk.injEq] at h
        obtain ⟨h3, h4⟩ := h
        have hwi : wi < b.words.length := by
          simp only [bhintOk] at hh
          omega
        subst hbi
        obtain ⟨hcp, hwf'⟩ := claim_core b hwf wi hwi hw3
        subst h3
        subst h4
        refine ⟨claimedPost_hint _ _ _ _ hcp, bitmapWf_hint _ _ hwf', ?_⟩
        simp only [bhintOk, claimWord, List.length_set]
        omega
    · rw [hs1] at h
      obtain ⟨h1, hw2, hw3, hbi, -⟩ := scanWords_some _ _ _ _ _ hs1
      simp only [FULLY_ALLOCATED, if_neg hw3, Option.some.injEq, Prod.mk.injEq] at h
      obtain ⟨h3, h4⟩ := h
      have hwi : wi < b.words.length := by
        simp only [bhintOk] at hh
        omega
      subst hbi
      obtain ⟨hcp, hwf'⟩ := claim_core b hwf wi hwi hw3
      subst h3
      subst h4
      refine ⟨claimedPost_hint _ _ _ _ hcp, bitmapWf_hint _ _ hwf', ?_⟩
      simp only [bhintOk, claimWord, List.length_set]
      omega
  case lockFree | noHint | noHintSpin =>
    simp only [BVariant.allocate_one] at h
    first
      | unfold BitmapLockFree.allocate_one at h
      | unfold BitmapNoHint.allocate_one at h
    rcases hs : scanWords b.words 0 b.words.length with _ | ⟨wi, bi⟩
    · rw [hs] at h
      simp at h
    · rw [hs] at h
      simp only [Option.some.injEq, Prod.mk.injEq] at h
      obtain ⟨h3, h4⟩ := h
      obtain ⟨-, hw2, hw3, hbi, -⟩ := scanWords_some _ _ _ _ _ hs
      have hwi : wi < b.words.length := by omega
      subst hbi
      obtain ⟨hcp, hwf'⟩ := claim_core b hwf wi hwi hw3
      subst h3
      subst h4
      exact ⟨hcp, hwf', trivial⟩
  case lockFreeHint =>
    simp only [BVariant.allocate_one] at h
    unfold BitmapLockFreeHint.allocate_one at h
    simp only at h
    rcases hs1 : scanWords b.words
        (if b.words.length &&& (b.words.length - 1) = 0 then
          b.allocation_hint &&& (b.words.length - 1)
        else b.allocation_hint % b.words.length)
        (b.words.length -
          (if b.words.length &&& (b.words.length - 1) = 0 then
            b.allocation_hint &&& (b.words.length - 1)
          else b.allocation_hint % b.words.length))
      with _ | ⟨wi, bi⟩
    · rw [hs1] at h
      simp only at h
      rcases hs2 : scanWords b.words 0
          (if b.words.length &&& (b.words.length - 1) = 0 then
            b.allocation_hint &&& (b.words.length - 1)
          else b.allocation_hint % b.words.length)
        with _ | ⟨wi, bi⟩
      · rw [hs2] at h
        simp at h
      · rw [hs2] at h
        simp only [Option.some.injEq, Prod.mk.injEq] at h
        obtain ⟨h3, h4⟩ := h
        obtain ⟨-, hw2, hw3, hbi, -⟩ := scanWords_some _ _ _ _ _ hs2
        have hstart : (if b.words.length &&& (b.words.length - 1) = 0 then
            b.allocation_hint &&& (b.words.length - 1)
          else b.allocation_hint % b.words.length) ≤ b.words.length := by
          split
          · exact le_trans Nat.and_le_right (by omega)
          · exact le_of_lt (Nat.mod_lt _ hpos)
        have hwi : wi < b.words.length := by omega
        subst hbi
        obtain ⟨hcp, hwf'⟩ :=
          claim_core { b with allocation_hint := b.allocation_hint + 1 }
            (bitmapWf_hint b _ hwf) wi hwi hw3
        subst h3
        subst h4
        exact ⟨claimedPost_base_hint b _ _ _ hcp, hwf', trivial⟩
    · rw [hs1] at h
      simp only [Option.some.injEq, Prod.mk.injEq] at h
      obtain ⟨h3, h4⟩ := h
      obtain ⟨h1, hw2, hw3, hbi, -⟩ := scanWords_some _ _ _ _ _ hs1
      have hwi : wi < b.words.length := by omega
      subst hbi
      obtain ⟨hcp, hwf'⟩ :=
        claim_core { b with allocation_hint := b.allocation_hint + 1 }
          (bitmapWf_hint b _ hwf) wi hwi hw3
      subst h3
      subst h4
      exact ⟨claimedPost_base_hint b _ _ _ hcp, hwf', trivial⟩

/-- Specification of a failed `allocate_one` for every bitmap variant:
the bitmap's words are untouched and every word was fully allocated. -/
theorem bv_allocate_one_none (v : BVariant) (b : Bitmap) (b' : Bitmap)
    (hwf : bitmapWf b) (hh : bhintOk v b)
    (h : v.allocate_one b = (none, b')) :
    b'.words = b.words ∧ b'.num_slots = b.num_slots ∧ bitmapWf b' ∧ bhintOk v b' ∧
      ∀ w ∈ b.words, w = 0 := by
  have hpos : 0 < b.words.length := hwf.2.2
  cases v
  case plain | spinPlain =>
    simp only [BVariant.allocate_one] at h
    unfold Bitmap.allocate_one at h
    rcases hs1 : scanWords b.words b.allocation_hint (b.words.length - b.allocation_hint)
      with _ | ⟨wi, bi⟩
    · rw [hs1] at h
      simp only at h
      rcases hs2 : scanWords b.words 0 b.allocation_hint with _ | ⟨wi, bi⟩
      · rw [hs2] at h
        simp only [Prod.mk.injEq] at h
        obtain ⟨-, h4⟩ := h
        subst h4
        refine ⟨rfl, rfl, hwf, hh, all_words_zero _ ?_⟩
        intro j hj
        simp only [bhintOk] at hh
        by_cases hjh : j < b.allocation_hint
        · exact (scanWords_none _ _ _).mp hs2 j (by omega) (by omega)
        · exact (scanWords_none _ _ _).mp hs1 j (by omega) (by omega)
      · rw [hs2] at h
        obtain ⟨-, -, hw3, -, -⟩ := scanWords_some _ _ _ _ _ hs2
        simp only [FULLY_ALLOCATED, if_neg hw3] at h
        simp at h
    · rw [hs1] at h
      obtain ⟨-, -, hw3, -, -⟩ := scanWords_some _ _ _ _ _ hs1
      simp only [FULLY_ALLOCATED, if_neg hw3] at h
      simp at h
  case lockFree | noHint | noHintSpin =>
    simp only [BVariant.allocate_one] at h
    first
      | unfold BitmapLockFree.allocate_one at h
      | unfold BitmapNoHint.allocate_one at h
    rcases hs : scanWords b.words 0 b.words.length with _ | ⟨wi, bi⟩
    · rw [hs] at h
      simp only [Prod.mk.injEq] at h
      obtain ⟨-, h4⟩ := h
      subst h4
      refine ⟨rfl, rfl, hwf, hh, all_words_zero _ ?_⟩
      intro j hj
      exact (scanWords_none _ _ _).mp hs j (by omega) (by omega)
    · rw [hs] at h
      simp at h
  case lockFreeHint =>
    simp only [BVariant.allocate_one] at h
    unfold BitmapLockFreeHint.allocate_one at h
    simp only at h
    have hstart : (if b.words.length &&& (b.words.length - 1) = 0 then
        b.allocation_hint &&& (b.words.length - 1)
      else b.allocation_hint % b.words.length) ≤ b.words.length := by
      split
      · exact le_trans Nat.and_le_right (by omega)
      · exact le_of_lt (Nat.mod_lt _ hpos)
    rcases hs1 : scanWords b.words
        (if b.words.length &&& (b.words.length - 1) = 0 then
          b.allocation_hint &&& (b.words.length - 1)
        else b.allocation_hint % b.words.length)
        (b.words.length -
          (if b.words.length &&& (b.words.length - 1) = 0 then
            b.allocation_hint &&& (b.words.length - 1)
          else b.allocation_hint % b.words.length))
      with _ | ⟨wi, bi⟩
    · rw [hs1] at h
      simp only at h
      rcases hs2 : scanWords b.words 0
          (if b.words.length &&& (b.words.length - 1) = 0 then
            b.allocation_hint &&& (b.words.length - 1)
          else b.allocation_hint % b.words.length)
        with _ | ⟨wi, bi⟩
      · rw [hs2] at h
        simp only [Prod.mk.injEq] at h
        obtain ⟨-, h4⟩ := h
        subst h4
        refine ⟨rfl, rfl, bitmapWf_hint b _ hwf, trivial, all_words_zero _ ?_⟩
        intro j hj
        by_cases hjh : j < (if b.words.length &&& (b.words.length - 1) = 0 then
            b.allocation_hint &&& (b.words.length - 1)
          else b.allocation_hint % b.words.length)
        · exact (scanWords_none _ _ _).mp hs2 j (by omega) (by omega)
        · exact (scanWords_none _ _ _).mp hs1 j (by omega) (by omega)
      · rw [hs2] at h
        simp at h
    · rw [hs1] at h
      simp at h

/-! Arena-level lemmas about `allocate`. -/

theorem AVariant.allocate_eq (v : AVariant) (sz : Nat) (a : Arena) :
    v.allocate sz a = allocateWith (v.bv.allocate_one) sz a := by
  cases v <;> rfl

theorem mem_freeIdxSet (b : Bitmap) (i : Nat) :
    i ∈ freeIdxSet b ↔ i < b.num_slots ∧ slotFree b.words i = true := by
  simp [freeIdxSet, Finset.mem_filter, Finset.mem_range]

theorem freeIdxSet_claim (b b' : Bitmap) (idx : Nat) (hp : claimedPost b b' idx) :
    freeIdxSet b' = (freeIdxSet b).erase idx := by
  obtain ⟨hidx, hfree, hchar, hns, -⟩ := hp
  ext j
  rw [mem_freeIdxSet, Finset.mem_erase, mem_freeIdxSet, hns, hchar j]
  constructor
  · rintro ⟨hj, hf⟩
    rw [Bool.and_eq_true, Bool.not_eq_true', decide_eq_false_iff_not] at hf
    exact ⟨hf.2, hj, hf.1⟩
  · rintro ⟨hne, hj, hf⟩
    refine ⟨hj, ?_⟩
    rw [Bool.and_eq_true, Bool.not_eq_true', decide_eq_false_iff_not]
    exact ⟨hf, hne⟩

theorem freeIdxSet_card_claim (b b' : Bitmap) (idx : Nat) (hp : claimedPost b b' idx) :
    (freeIdxSet b').card = (freeIdxSet b).card - 1 ∧ idx ∈ freeIdxSet b := by
  have hmem : idx ∈ freeIdxSet b := (mem_freeIdxSet b idx).mpr ⟨hp.1, hp.2.1⟩
  rw [freeIdxSet_claim b b' idx hp]
  exact ⟨Finset.card_erase_of_mem hmem, hmem⟩

/-- Specification of a successful `allocate` on any arena variant. -/
theorem allocate_some_spec (v : AVariant) (sz : Nat) (a : Arena) (p : Nat) (a' : Arena)
    (hwf : arenaWfV v a) (h : v.allocate sz a = (some p, a')) :
    ∃ i, p = a.base + a.slot_size * i ∧ claimedPost a.bitmap a'.bitmap i ∧
      a'.base = a.base ∧ a'.slot_size = a.slot_size ∧ a'.capacity = a.capacity ∧
      a'.slots_in_use = inc16 a.slots_in_use ∧ arenaWfV v a' := by
  obtain ⟨⟨hss, hcap, hbwf, hcnt⟩, hh⟩ := hwf
  rw [AVariant.allocate_eq] at h
  unfold allocateWith at h
  by_cases hsz : sz = 0
  · simp [hsz] at h
  · rw [if_neg hsz] at h
    simp only at h
    by_cases hreq : (sz + a.slot_size - 1) / a.slot_size = 1
    · rw [if_pos hreq] at h
      rcases hbm : BVariant.allocate_one v.bv a.bitmap with ⟨ro, bm⟩
      rcases ro with _ | idx
      · rw [hbm] at h
        simp at h
      · rw [hbm] at h
        simp only [Option.some.injEq, Prod.mk.injEq] at h
        obtain ⟨hp, ha'⟩ := h
        obtain ⟨hcp, hbwf', hh'⟩ := bv_allocate_one_some v.bv a.bitmap idx bm hbwf hh hbm
        subst ha'
        refine ⟨idx, hp.symm, hcp, rfl, rfl, rfl, rfl, ⟨⟨hss, ?_, hbwf', ?_⟩, hh'⟩⟩
        · simp only
          rw [hcap, hcp.2.2.2.1]
        · simp only [inc16]
          omega
    · rw [if_neg hreq] at h
      simp at h

/-- Specification of a failed `allocate` on any arena variant: nothing
observable changes, and if the request was a valid single-slot one the
bitmap was fully allocated. -/
theorem allocate_none_spec (v : AVariant) (sz : Nat) (a : Arena) (a' : Arena)
    (hwf : arenaWfV v a) (h : v.allocate sz a = (none, a')) :
    a'.bitmap.words = a.bitmap.words ∧ a'.bitmap.num_slots = a.bitmap.num_slots ∧
      a'.base = a.base ∧ a'.slot_size = a.slot_size ∧ a'.capacity = a.capacity ∧
      a'.slots_in_use = a.slots_in_use ∧ arenaWfV v a' ∧
      (0 < sz → sz ≤ a.slot_size → ∀ w ∈ a.bitmap.words, w = 0) := by
  obtain ⟨⟨hss, hcap, hbwf, hcnt⟩, hh⟩ := hwf
  have hreq1 : 0 < sz → sz ≤ a.slot_size → (sz + a.slot_size - 1) / a.slot_size = 1 := by
    intro h0 hle
    apply Nat.div_eq_of_lt_le <;> omega
  rw [AVariant.allocate_eq] at h
  unfold allocateWith at h
  by_cases hsz : sz = 0
  · rw [if_pos hsz] at h
    simp only [Prod.mk.injEq] at h
    obtain ⟨-, ha'⟩ := h
    subst ha'
    exact ⟨rfl, rfl, rfl, rfl, rfl, rfl, ⟨⟨hss, hcap, hbwf, hcnt⟩, hh⟩,
      fun h0 _ => absurd hsz (by omega)⟩
  · rw [if_neg hsz] at h
    simp only at h
    by_cases hreq : (sz + a.slot_size - 1) / a.slot_size = 1
    · rw [if_pos hreq] at h
      rcases hbm : BVariant.allocate_one v.bv a.bitmap with ⟨ro, bm⟩
      rcases ro with _ | idx
      · rw [hbm] at h
        simp only [Prod.mk.injEq] at h
        obtain ⟨-, ha'⟩ := h
        subst ha'
        obtain ⟨hw1, hw2, hbwf', hh', hzero⟩ := bv_allocate_one_none v.bv a.bitmap bm hbwf hh hbm
        refine ⟨hw1, hw2, rfl, rfl, rfl, rfl, ⟨⟨hss, ?_, hbwf', hcnt⟩, hh'⟩, fun _ _ => hzero⟩
        simp only
        rw [hcap, hw2]
      · rw [hbm] at h
        simp at h
    · rw [if_neg hreq] at h
      simp only [Prod.mk.injEq] at h
      obtain ⟨-, ha'⟩ := h
      subst ha'
      refine ⟨rfl, rfl, rfl, rfl, rfl, rfl, ⟨⟨hss, hcap, hbwf, hcnt⟩, hh⟩, ?_⟩
      intro h0 hle
      exact absurd (hreq1 h0 hle) hreq

/-- When a free slot exists and the request is a valid single-slot one,
`allocate` succeeds. -/
theorem allocate_succeeds (v : AVariant) (sz : Nat) (a : Arena)
    (hwf : arenaWfV v a) (h0 : 0 < sz) (hle : sz ≤ a.slot_size)
    (i : Nat) (hi : i < a.bitmap.num_slots) (hfree : slotFree a.bitmap.words i = true) :
    (v.allocate sz a).1.isSome := by
  rcases hr : v.allocate sz a with ⟨ro, a'⟩
  rcases ro with _ | p
  · exfalso
    obtain ⟨-, -, -, -, -, -, -, hzero⟩ := allocate_none_spec v sz a a' hwf hr
    obtain ⟨hwi, hwnz⟩ := nonzero_word_of_slotFree a.bitmap hwf.1.2.2.1 i hi hfree
    have hmem : a.bitmap.words.getD (i / 64) 0 ∈ a.bitmap.words := by
      rw [getD_eq_getElem _ _ hwi]
      exact List.getElem_mem hwi
    exact hwnz (hzero h0 hle _ hmem)
  · simp

/-- Counter evolution of `allocate`: incremented exactly on success. -/
theorem allocate_count (v : AVariant) (sz : Nat) (a : Arena) :
    (v.allocate sz a).2.slots_in_use =
      (if (v.allocate sz a).1.isSome then inc16 a.slots_in_use else a.slots_in_use) := by
  rw [AVariant.allocate_eq]
  unfold allocateWith
  by_cases hsz : sz = 0
  · simp [hsz]
  · rw [if_neg hsz]
    simp only
    by_cases hreq : (sz + a.slot_size - 1) / a.slot_size = 1
    · rw [if_pos hreq]
      rcases hbm : BVariant.allocate_one v.bv a.bitmap with ⟨ro, bm⟩
      rcases ro with _ | idx <;> simp
    · rw [if_neg hreq]
      simp

/-! Arena-level lemmas about `free`. -/

theorem slotFree_setWord (ws : List Nat) (i : Nat) (hi : i / 64 < ws.length) (j : Nat) :
    slotFree (ws.set (i / 64) (setBitW (ws.getD (i / 64) 0) (i % 64))) j =
      (slotFree ws j || decide (j = i)) := by
  by_cases hj : j / 64 = i / 64
  · unfold slotFree
    rw [hj, getD_set_self ws _ _ hi, testBit_setBitW]
    have hiff : (j % 64 = i % 64) ↔ (j = i) := by omega
    rw [decide_eq_decide.mpr hiff]
  · have hne : decide (j = i) = false := by
      rw [decide_eq_false_iff_not]
      omega
    unfold slotFree
    rw [getD_set_ne ws _ _ _ (fun h => hj h.symm), hne]
    simp

theorem bitmap_free_slot_state (s : Nat) (b : Bitmap) :
    Bitmap.free_slot s b =
      (0, { b with
        words := b.words.set (s / 64) (setBitW (b.words.getD (s / 64) 0) (s % 64)),
        allocation_hint := s / 64 }) := by
  unfold Bitmap.free_slot
  rw [word_bit_index_eq]

theorem bitmapNoHint_free_slot_state (s : Nat) (b : Bitmap) :
    BitmapNoHint.free_slot s b =
      (0, { b with
        words := b.words.set (s / 64) (setBitW (b.words.getD (s / 64) 0) (s % 64)) }) := by
  unfold BitmapNoHint.free_slot
  rw [word_bit_index_eq]

theorem bitmapLockFree_free_slot_state (s : Nat) (b : Bitmap) :
    BitmapLockFree.free_slot s b =
      (0, { b with
        words := b.words.set (s / 64) (setBitW (b.words.getD (s / 64) 0) (s % 64)) }) := by
  unfold BitmapLockFree.free_slot
  rw [word_bit_index_eq]

theorem bitmapLockFreeHint_free_slot_state (s : Nat) (b : Bitmap) :
    BitmapLockFreeHint.free_slot s b =
      (0, { b with
        words := b.words.set (s / 64) (setBitW (b.words.getD (s / 64) 0) (s % 64)) }) := by
  unfold BitmapLockFreeHint.free_slot
  rw [word_bit_index_eq]

/-- Evaluating the checked `free` body on a valid, currently allocated
single-slot pointer: every validity check passes and the bitmap release
runs. -/
theorem freeChecked_valid (bmFree : Nat → Bitmap → Nat × Bitmap) (a : Arena) (i sz : Nat)
    (hss0 : 0 < a.slot_size) (hcap : a.capacity = a.bitmap.num_slots * a.slot_size)
    (hi : i < a.bitmap.num_slots) (h0 : 0 < sz) (hle : sz ≤ a.slot_size)
    (halloc : slotFree a.bitmap.words i = false) :
    freeChecked bmFree (some (a.base + a.slot_size * i)) sz a =
      { a with bitmap := (bmFree i a.bitmap).2, slots_in_use := dec16 a.slots_in_use } := by
  have hc2 : ¬ (a.base + a.slot_size * i < a.base) := by omega
  have hc3 : ¬ (a.base + a.capacity ≤ a.base + a.slot_size * i) := by
    have : a.slot_size * i < a.slot_size * a.bitmap.num_slots :=
      mul_lt_mul_of_pos_left hi hss0
    have hmm : a.bitmap.num_slots * a.slot_size = a.slot_size * a.bitmap.num_slots :=
      Nat.mul_comm _ _
    omega
  have hoff : a.base + a.slot_size * i - a.base = a.slot_size * i := by omega
  have hmod : ¬ (a.slot_size * i % a.slot_size ≠ 0) := by
    simp [Nat.mul_mod_right]
  have hdiv : a.slot_size * i / a.slot_size = i :=
    Nat.mul_div_cancel_left i hss0
  have hreq : ¬ ((sz + a.slot_size - 1) / a.slot_size ≠ 1) := by
    simp only [ne_eq, not_not]
    apply Nat.div_eq_of_lt_le <;> omega
  have hns : ¬ (a.bitmap.num_slots ≤ i) := by omega
  have hbit : ¬ (a.bitmap.words.getD
      ((get_word_and_bit_index_from_slot_index i).1) 0 &&&
        (1 <<< (get_word_and_bit_index_from_slot_index i).2) ≠ 0) := by
    rw [word_bit_index_eq]
    simp only [not_not]
    by_contra hne
    have := (and_shift_ne_zero_iff _ _).mp hne
    unfold slotFree at halloc
    rw [this] at halloc
    exact absurd halloc (by simp)
  unfold freeChecked
  simp only [if_neg (by omega : ¬ sz = 0), if_neg hc2, if_neg hc3, hoff, if_neg hmod,
    if_neg hreq, hdiv, if_neg hns, if_neg hbit]

/-- Evaluating the lock-free `free` body on a valid single-slot pointer with
a `free_slot` that reports success (return code 0): the pointer checks pass,
the release runs and the counter is decremented.  Note that no
"currently allocated" hypothesis is needed: the lock-free `free_slot` always
returns 0. -/
theorem freeLockFree_valid (bmFree : Nat → Bitmap → Nat × Bitmap) (a : Arena) (i sz : Nat)
    (hss0 : 0 < a.slot_size) (hcap : a.capacity = a.bitmap.num_slots * a.slot_size)
    (hi : i < a.bitmap.num_slots) (h0 : 0 < sz) (hle : sz ≤ a.slot_size)
    (hrc : (bmFree i a.bitmap).1 = 0) :
    freeLockFree bmFree (some (a.base + a.slot_size * i)) sz a =
      { a with bitmap := (bmFree i a.bitmap).2, slots_in_use := dec16 a.slots_in_use } := by
  have hc2 : ¬ (a.base + a.slot_size * i < a.base) := by omega
  have hc3 : ¬ (a.base + a.capacity ≤ a.base + a.slot_size * i) := by
    have : a.slot_size * i < a.slot_size * a.bitmap.num_slots :=
      mul_lt_mul_of_pos_left hi hss0
    have hmm : a.bitmap.num_slots * a.slot_size = a.slot_size * a.bitmap.num_slots :=
      Nat.mul_comm _ _
    omega
  have hoff : a.base + a.slot_size * i - a.base = a.slot_size * i := by omega
  have hmod : ¬ (a.slot_size * i % a.slot_size ≠ 0) := by
    simp [Nat.mul_mod_right]
  have hdiv : a.slot_size * i / a.slot_size = i :=
    Nat.mul_div_cancel_left i hss0
  have hreq : ¬ ((sz + a.slot_size - 1) / a.slot_size ≠ 1) := by
    simp only [ne_eq, not_not]
    apply Nat.div_eq_of_lt_le <;> omega
  have hns : ¬ (a.bitmap.num_slots ≤ i) := by omega
  unfold freeLockFree
  simp only [if_neg (by omega : ¬ sz = 0), if_neg hc2, if_neg hc3, hoff, if_neg hmod,
    if_neg hreq, hdiv, if_neg hns, if_pos hrc]

theorem freeChecked_count (bmFree : Nat → Bitmap → Nat × Bitmap) (p : Option Nat)
    (sz : Nat) (a : Arena) :
    (freeChecked bmFree p sz a).slots_in_use = a.slots_in_use ∨
      (freeChecked bmFree p sz a).slots_in_use = dec16 a.slots_in_use := by
  unfold freeChecked
  rcases p with _ | q
  · exact Or.inl rfl
  · simp only
    split
    · exact Or.inl rfl
    split
    · exact Or.inl rfl
    split
    · exact Or.inl rfl
    split
    · exact Or.inl rfl
    split
    · exact Or.inl rfl
    split
    · exact Or.inl rfl
    split
    · exact Or.inl rfl
    · exact Or.inr rfl

theorem freeLockFree_count (bmFree : Nat → Bitmap → Nat × Bitmap) (p : Option Nat)
    (sz : Nat) (a : Arena) :
    (freeLockFree bmFree p sz a).slots_in_use = a.slots_in_use ∨
      (freeLockFree bmFree p sz a).slots_in_use = dec16 a.slots_in_use := by
  unfold freeLockFree
  rcases p with _ | q
  · exact Or.inl rfl
  · simp only
    split
    · exact Or.inl rfl
    split
    · exact Or.inl rfl
    split
    · exact Or.inl rfl
    split
    · exact Or.inl rfl
    split
    · exact Or.inl rfl
    split
    · exact Or.inl rfl
    split
    · exact Or.inr rfl
    · exact Or.inl rfl

/-- Counter evolution of `free` on any variant: unchanged or decremented. -/
theorem free_count (v : AVariant) (p : Option Nat) (sz : Nat) (a : Arena) :
    (v.free p sz a).slots_in_use = a.slots_in_use ∨
      (v.free p sz a).slots_in_use = dec16 a.slots_in_use := by
  cases v
  case mutex => exact freeChecked_count Bitmap.free_slot p sz a
  case spin => exact freeChecked_count Bitmap.free_slot p sz a
  case lockFree => exact freeLockFree_count BitmapLockFree.free_slot p sz a
  case lockFreeHint => exact freeLockFree_count BitmapLockFreeHint.free_slot p sz a
  case noHint => exact freeChecked_count BitmapNoHint.free_slot p sz a
  case noHintSpin => exact freeChecked_count BitmapNoHint.free_slot p sz a

/-- Specification of `free` on a valid pointer to a currently allocated
slot, for every variant: exactly that slot's bit is set back to free and the
counter is decremented. -/
theorem free_allocated_spec (v : AVariant) (a : Arena) (i sz : Nat)
    (hwf : arenaWfV v a) (hi : i < a.bitmap.num_slots)
    (halloc : slotFree a.bitmap.words i = false)
    (h0 : 0 < sz) (hle : sz ≤ a.slot_size) :
    (∀ j, slotFree (v.free (some (a.base + a.slot_size * i)) sz a).bitmap.words j =
        (slotFree a.bitmap.words j || decide (j = i))) ∧
      (v.free (some (a.base + a.slot_size * i)) sz a).base = a.base ∧
      (v.free (some (a.base + a.slot_size * i)) sz a).slot_size = a.slot_size ∧
      (v.free (some (a.base + a.slot_size * i)) sz a).capacity = a.capacity ∧
      (v.free (some (a.base + a.slot_size * i)) sz a).bitmap.num_slots = a.bitmap.num_slots ∧
      (v.free (some (a.base + a.slot_size * i)) sz a).slots_in_use = dec16 a.slots_in_use ∧
      arenaWfV v (v.free (some (a.base + a.slot_size * i)) sz a) := by
  obtain ⟨⟨hss, hcap, ⟨hlen, hok, hpos⟩, hcnt⟩, hh⟩ := hwf
  have hi64 : i / 64 < a.bitmap.words.length := by omega
  have hwlt : a.bitmap.words.getD (i / 64) 0 < 2 ^ 64 := wordsOk_getD _ hok _
  have hok2 : wordsOk (a.bitmap.words.set (i / 64)
      (setBitW (a.bitmap.words.getD (i / 64) 0) (i % 64))) :=
    wordsOk_set _ hok _ _ (setBitW_lt _ _ hwlt (by omega))
  cases v
  case mutex | spin =>
    have hkey : freeChecked Bitmap.free_slot (some (a.base + a.slot_size * i)) sz a =
        { a with
          bitmap := { a.bitmap with
            words := a.bitmap.words.set (i / 64)
              (setBitW (a.bitmap.words.getD (i / 64) 0) (i % 64)),
            allocation_hint := i / 64 },
          slots_in_use := dec16 a.slots_in_use } := by
      rw [freeChecked_valid Bitmap.free_slot a i sz hss hcap hi h0 hle halloc,
        bitmap_free_slot_state]
    simp only [AVariant.free, Arena.free, ArenaSpinLock.free]
    rw [hkey]
    refine ⟨fun j => slotFree_setWord a.bitmap.words i hi64 j, rfl, rfl, rfl, rfl, rfl,
      ⟨⟨hss, hcap, ⟨?_, hok2, ?_⟩, ?_⟩, ?_⟩⟩
    · rw [List.length_set]
      exact hlen
    · rw [List.length_set]
      exact hpos
    · simp only [dec16]
      omega
    · simp only [AVariant.bv, bhintOk, List.length_set]
      omega
  case noHint | noHintSpin =>
    have hkey : freeChecked BitmapNoHint.free_slot (some (a.base + a.slot_size * i)) sz a =
        { a with
          bitmap := { a.bitmap with
            words := a.bitmap.words.set (i / 64)
              (setBitW (a.bitmap.words.getD (i / 64) 0) (i % 64)) },
          slots_in_use := dec16 a.slots_in_use } := by
      rw [freeChecked_valid BitmapNoHint.free_slot a i sz hss hcap hi h0 hle halloc,
        bitmapNoHint_free_slot_state]
    simp only [AVariant.free, ArenaNoHint.free, ArenaNoHintSpinLock.free]
    rw [hkey]
    refine ⟨fun j => slotFree_setWord a.bitmap.words i hi64 j, rfl, rfl, rfl, rfl, rfl,
      ⟨⟨hss, hcap, ⟨?_, hok2, ?_⟩, ?_⟩, trivial⟩⟩
    · rw [List.length_set]
      exact hlen
    · rw [List.length_set]
      exact hpos
    · simp only [dec16]
      omega
  case lockFree =>
    have hkey : freeLockFree BitmapLockFree.free_slot
        (some (a.base + a.slot_size * i)) sz a =
        { a with
          bitmap := { a.bitmap with
            words := a.bitmap.words.set (i / 64)
              (setBitW (a.bitmap.words.getD (i / 64) 0) (i % 64)) },
          slots_in_use := dec16 a.slots_in_use } := by
      rw [freeLockFree_valid BitmapLockFree.free_slot a i sz hss hcap hi h0 hle
        (by rw [bitmapLockFree_free_slot_state]), bitmapLockFree_free_slot_state]
    simp only [AVariant.free, ArenaLockFree.free]
    rw [hkey]
    refine ⟨fun j => slotFree_setWord a.bitmap.words i hi64 j, rfl, rfl, rfl, rfl, rfl,
      ⟨⟨hss, hcap, ⟨?_, hok2, ?_⟩, ?_⟩, trivial⟩⟩
    · rw [List.length_set]
      exact hlen
    · rw [List.length_set]
      exact hpos
    · simp only [dec16]
      omega
  case lockFreeHint =>
    have hkey : freeLockFree BitmapLockFreeHint.free_slot
        (some (a.base + a.slot_size * i)) sz a =
        { a with
          bitmap := { a.bitmap with
            words := a.bitmap.words.set (i / 64)
              (setBitW (a.bitmap.words.getD (i / 64) 0) (i % 64)) },
          slots_in_use := dec16 a.slots_in_use } := by
      rw [freeLockFree_valid BitmapLockFreeHint.free_slot a i sz hss hcap hi h0 hle
        (by rw [bitmapLockFreeHint_free_slot_state]), bitmapLockFreeHint_free_slot_state]
    simp only [AVariant.free, ArenaLockFreeHint.free]
    rw [hkey]
    refine ⟨fun j => slotFree_setWord a.bitmap.words i hi64 j, rfl, rfl, rfl, rfl, rfl,
      ⟨⟨hss, hcap, ⟨?_, hok2, ?_⟩, ?_⟩, trivial⟩⟩
    · rw [List.length_set]
      exact hlen
    · rw [List.length_set]
      exact hpos
    · simp only [dec16]
      omega

/-! Run-level lemmas: sequences of calls. -/

theorem runAllocs_cons (v : AVariant) (sz : Nat) (rest : List Nat) (a : Arena) :
    runAllocs v (sz :: rest) a =
      ((v.allocate sz a).1 :: (runAllocs v rest (v.allocate sz a).2).1,
        (runAllocs v rest (v.allocate sz a).2).2) := rfl

/-- Main invariant of a run of `allocate` calls that all succeed: geometry
fields are preserved, the set of free slots only shrinks, every returned
pointer is `base + slot_size * i` for a slot `i` that was free at its own
call and stays allocated to the end, and the returned pointers are pairwise
distinct. -/
theorem runAllocs_spec (v : AVariant) : ∀ (sizes : List Nat) (a : Arena),
    arenaWfV v a → (∀ r ∈ (runAllocs v sizes a).1, r.isSome) →
    arenaWfV v (runAllocs v sizes a).2 ∧
      (runAllocs v sizes a).2.base = a.base ∧
      (runAllocs v sizes a).2.slot_size = a.slot_size ∧
      (runAllocs v sizes a).2.capacity = a.capacity ∧
      (runAllocs v sizes a).2.bitmap.num_slots = a.bitmap.num_slots ∧
      (∀ j, slotFree (runAllocs v sizes a).2.bitmap.words j = true →
        slotFree a.bitmap.words j = true) ∧
      (∀ r ∈ (runAllocs v sizes a).1, ∃ i, i < a.bitmap.num_slots ∧
        r = some (a.base + a.slot_size * i) ∧ slotFree a.bitmap.words i = true ∧
        slotFree (runAllocs v sizes a).2.bitmap.words i = false) ∧
      (runAllocs v sizes a).1.Pairwise (· ≠ ·) := by
  intro sizes
  induction sizes with
  | nil =>
    intro a hwf hall
    exact ⟨hwf, rfl, rfl, rfl, rfl, fun j h => h, by simp [runAllocs], by simp [runAllocs]⟩
  | cons sz rest ih =>
    intro a hwf hall
    rw [runAllocs_cons] at hall ⊢
    simp only [List.mem_cons] at hall
    have hhead : (v.allocate sz a).1.isSome := hall _ (Or.inl rfl)
    rcases hr : (v.allocate sz a).1 with _ | p
    · rw [hr] at hhead; exact absurd hhead (by simp)
    · have hr2 : v.allocate sz a = (some p, (v.allocate sz a).2) := by
        rw [← hr]
      obtain ⟨i0, hp, hcp, hb1, hs1, hc1, hcnt1, hwf1⟩ :=
        allocate_some_spec v sz a p (v.allocate sz a).2 hwf hr2
      have htail : ∀ r ∈ (runAllocs v rest (v.allocate sz a).2).1, r.isSome := by
        intro r hrr
        exact hall r (Or.inr hrr)
      obtain ⟨ihwf, ihb, ihs, ihc, ihn, ihmono, ihptr, ihpw⟩ :=
        ih (v.allocate sz a).2 hwf1 htail
      have hmono1 : ∀ j, slotFree (v.allocate sz a).2.bitmap.words j = true →
          slotFree a.bitmap.words j = true := by
        intro j hj
        have := hcp.2.2.1 j
        rw [hj] at this
        rcases hsf : slotFree a.bitmap.words j with _ | _
        · rw [hsf] at this; simp at this
        · rfl
      have hi0new : slotFree (v.allocate sz a).2.bitmap.words i0 = false := by
        have := hcp.2.2.1 i0
        simp at this
        exact this
      have hi0final : slotFree (runAllocs v rest (v.allocate sz a).2).2.bitmap.words i0
          = false := by
        rcases hsf : slotFree (runAllocs v rest (v.allocate sz a).2).2.bitmap.words i0
          with _ | _
        · rfl
        · have := ihmono i0 hsf
          rw [hi0new] at this
          exact absurd this (by simp)
      refine ⟨ihwf, by rw [ihb, hb1], by rw [ihs, hs1], by rw [ihc, hc1],
        by rw [ihn, hcp.2.2.2.1], ?_, ?_, ?_⟩
      · intro j hj
        exact hmono1 j (ihmono j hj)
      · intro r hrr
        rcases List.mem_cons.mp hrr with hrr | hrr
        · subst hrr
          refine ⟨i0, hcp.1, ?_, hcp.2.1, hi0final⟩
          rw [hp]
        · obtain ⟨i, hin, hre, hfree, hfin⟩ := ihptr r hrr
          refine ⟨i, by rw [← hcp.2.2.2.1]; exact hin, ?_, hmono1 i hfree, hfin⟩
          rw [hre, hb1, hs1]
      · rw [List.pairwise_cons]
        refine ⟨?_, ihpw⟩
        intro r hrr
        obtain ⟨i, hin, hre, hfree, -⟩ := ihptr r hrr
        have hine : i ≠ i0 := by
          intro hcontra
          rw [hcontra, hi0new] at hfree
          exact absurd hfree (by simp)
        rw [hp, hre, hb1, hs1]
        intro heq
        simp only [Option.some.injEq] at heq
        have hss0 : 0 < a.slot_size := hwf.1.1
        have hii : i0 = i := Nat.eq_of_mul_eq_mul_left hss0 (by omega)
        exact hine hii.symm

/-- When there are at least as many free slots as requests (each a valid
single-slot request), every `allocate` in the run succeeds, the number of
free slots drops by the number of requests and the occupancy counter is
incremented once for each. -/
theorem runAllocs_full (v : AVariant) : ∀ (sizes : List Nat) (a : Arena),
    arenaWfV v a → (∀ sz ∈ sizes, 0 < sz ∧ sz ≤ a.slot_size) →
    sizes.length ≤ (freeIdxSet a.bitmap).card →
    (∀ r ∈ (runAllocs v sizes a).1, r.isSome) ∧
      (freeIdxSet (runAllocs v sizes a).2.bitmap).card =
        (freeIdxSet a.bitmap).card - sizes.length ∧
      (runAllocs v sizes a).2.slots_in_use = (a.slots_in_use + sizes.length) % 2 ^ 16 ∧
      arenaWfV v (runAllocs v sizes a).2 ∧
      (runAllocs v sizes a).2.base = a.base ∧
      (runAllocs v sizes a).2.slot_size = a.slot_size ∧
      (runAllocs v sizes a).2.capacity = a.capacity ∧
      (runAllocs v sizes a).2.bitmap.num_slots = a.bitmap.num_slots := by
  intro sizes
  induction sizes with
  | nil =>
    intro a hwf hsz hcard
    have hcnt : a.slots_in_use < 2 ^ 16 := hwf.1.2.2.2
    exact ⟨by simp [runAllocs], by simp [runAllocs], by simp [runAllocs]; omega,
      hwf, rfl, rfl, rfl, rfl⟩
  | cons sz rest ih =>
    intro a hwf hsz hcard
    rw [runAllocs_cons]
    simp only [List.length_cons] at hcard
    have hcard0 : 0 < (freeIdxSet a.bitmap).card := by omega
    obtain ⟨i, hi⟩ := Finset.card_pos.mp hcard0
    obtain ⟨hin, hfree⟩ := (mem_freeIdxSet _ _).mp hi
    obtain ⟨h0, hle⟩ := hsz sz (by simp)
    have hsome : (v.allocate sz a).1.isSome :=
      allocate_succeeds v sz a hwf h0 hle i hin hfree
    rcases hr : (v.allocate sz a).1 with _ | p
    · rw [hr] at hsome; exact absurd hsome (by simp)
    · have hr2 : v.allocate sz a = (some p, (v.allocate sz a).2) := by rw [← hr]
      obtain ⟨i0, hp, hcp, hb1, hs1, hc1, hcnt1, hwf1⟩ :=
        allocate_some_spec v sz a p (v.allocate sz a).2 hwf hr2
      obtain ⟨hcard1, hmem0⟩ := freeIdxSet_card_claim _ _ _ hcp
      have hcard1' : rest.length ≤ (freeIdxSet (v.allocate sz a).2.bitmap).card := by
        rw [hcard1]
        have := Finset.card_pos.mpr ⟨i0, hmem0⟩
        omega
      have hsz1 : ∀ s ∈ rest, 0 < s ∧ s ≤ (v.allocate sz a).2.slot_size := by
        intro s hs
        rw [hs1]
        exact hsz s (by simp [hs])
      obtain ⟨ihall, ihcard, ihcnt, ihwf, ihb, ihs, ihc, ihn⟩ :=
        ih (v.allocate sz a).2 hwf1 hsz1 hcard1'
      have hcnt0 : a.slots_in_use < 2 ^ 16 := hwf.1.2.2.2
      refine ⟨?_, ?_, ?_, ihwf, by rw [ihb, hb1], by rw [ihs, hs1], by rw [ihc, hc1],
        by rw [ihn, hcp.2.2.2.1]⟩
      · intro r hrr
        rcases List.mem_cons.mp hrr with hrr | hrr
        · subst hrr; simp [hr]
        · exact ihall r hrr
      · rw [ihcard, hcard1]
        simp only [List.length_cons]
        have := Finset.card_pos.mpr ⟨i0, hmem0⟩
        omega
      · rw [ihcnt, hcnt1]
        simp only [inc16, List.length_cons]
        omega

/-- Evolution of the occupancy counter over an arbitrary run of API calls:
each successful allocate adds one and each successful free subtracts one,
modulo `2 ^ 16`. -/
theorem runOps_count (v : AVariant) : ∀ (ops : List ArenaOp) (a : Arena),
    a.slots_in_use < 2 ^ 16 →
    (runOps v ops a).slots_in_use =
      (a.slots_in_use + succAllocs v ops a + (2 ^ 16 - 1) * succFrees v ops a) % 2 ^ 16 := by
  intro ops
  induction ops with
  | nil =>
    intro a hcnt
    simp only [runOps, succAllocs, succFrees]
    omega
  | cons op rest ih =>
    intro a hcnt
    rcases op with sz | ⟨p, sz⟩
    · have hcount := allocate_count v sz a
      simp only [runOps, succAllocs, succFrees]
      by_cases hs : (v.allocate sz a).1.isSome
      · rw [if_pos hs] at hcount
        have hcnt1 : (v.allocate sz a).2.slots_in_use < 2 ^ 16 := by
          rw [hcount]; simp only [inc16]; omega
        rw [ih (v.allocate sz a).2 hcnt1, hcount]
        simp only [if_pos hs, inc16]
        omega
      · rw [if_neg hs] at hcount
        have hcnt1 : (v.allocate sz a).2.slots_in_use < 2 ^ 16 := by
          rw [hcount]; exact hcnt
        rw [ih (v.allocate sz a).2 hcnt1, hcount]
        simp only [if_neg hs]
        omega
    · have hcount := free_count v p sz a
      simp only [runOps, succAllocs, succFrees]
      by_cases hch : (v.free p sz a).slots_in_use = a.slots_in_use
      · rw [if_neg (by simp [hch] : ¬ (v.free p sz a).slots_in_use ≠ a.slots_in_use)]
        have hcnt1 : (v.free p sz a).slots_in_use < 2 ^ 16 := by rw [hch]; exact hcnt
        rw [ih (v.free p sz a) hcnt1, hch]
        omega
      · rw [if_pos hch]
        have hdec : (v.free p sz a).slots_in_use = dec16 a.slots_in_use := by
          rcases hcount with h | h
          · exact absurd h hch
          · exact h
        have hcnt1 : (v.free p sz a).slots_in_use < 2 ^ 16 := by
          rw [hdec]; simp only [dec16]; omega
        rw [ih (v.free p sz a) hcnt1, hdec]
        simp only [dec16]
        omega

/-! Lemmas about the constructor. -/

theorem adjustedNumSlots_mod64 (c s : Nat) : adjustedNumSlots c s % 64 = 0 := by
  unfold adjustedNumSlots WORD_LENGTH
  simp only
  omega

theorem create_fields (c s b : Nat) :
    (Arena.create c s b).capacity = adjustedNumSlots c s * s % 2 ^ 64 ∧
      (Arena.create c s b).base = b ∧
      (Arena.create c s b).slot_size = s ∧
      (Arena.create c s b).bitmap.num_slots = adjustedNumSlots c s ∧
      (Arena.create c s b).bitmap.words =
        List.replicate (adjustedNumSlots c s / WORD_LENGTH) FULLY_FREE ∧
      (Arena.create c s b).bitmap.allocation_hint = 0 ∧
      (Arena.create c s b).slots_in_use = 0 :=
  ⟨rfl, rfl, rfl, rfl, rfl, rfl, rfl⟩

theorem create_allFree (c s b : Nat) :
    ∀ i, i < (Arena.create c s b).bitmap.num_slots →
      slotFree (Arena.create c s b).bitmap.words i = true := by
  intro i hi
  have hmod := adjustedNumSlots_mod64 c s
  have hns : (Arena.create c s b).bitmap.num_slots = adjustedNumSlots c s := rfl
  rw [hns] at hi
  have hlt : i / 64 < adjustedNumSlots c s / 64 := by omega
  unfold slotFree
  have hw : (Arena.create c s b).bitmap.words.getD (i / 64) 0 = FULLY_FREE := by
    show (List.replicate (adjustedNumSlots c s / WORD_LENGTH) FULLY_FREE).getD (i / 64) 0 =
      FULLY_FREE
    rw [List.getD_eq_getElem?_getD, List.getElem?_replicate]
    simp only [WORD_LENGTH]
    rw [if_pos hlt]
    rfl
  rw [hw]
  show (2 ^ 64 - 1).testBit (i % 64) = true
  rw [Nat.testBit_two_pow_sub_one]
  simp [Nat.mod_lt i (by norm_num : (0:Nat) < 64)]

/-- The freshly built bitmap is well-formed whenever the (wrapped) slot
count is positive; the count is a multiple of 64 even when the `size_t`
arithmetic wraps. -/
theorem create_bitmapWf (c s b : Nat) (hns : 0 < adjustedNumSlots c s) :
    bitmapWf (Arena.create c s b).bitmap := by
  have hmod := adjustedNumSlots_mod64 c s
  have hlenr : (List.replicate (adjustedNumSlots c s / WORD_LENGTH) FULLY_FREE).length =
      adjustedNumSlots c s / 64 := by
    rw [List.length_replicate]
    rfl
  refine ⟨?_, ?_, ?_⟩
  · show (List.replicate (adjustedNumSlots c s / WORD_LENGTH) FULLY_FREE).length * 64 =
      adjustedNumSlots c s
    rw [hlenr]
    omega
  · intro w hw
    rw [List.eq_of_mem_replicate hw]
    show 2 ^ 64 - 1 < 2 ^ 64
    norm_num
  · show 0 < (List.replicate (adjustedNumSlots c s / WORD_LENGTH) FULLY_FREE).length
    rw [hlenr]
    omega

/-- The constructed arena is well-formed whenever the slot count is
positive and the region-size product `num_slots * page_size` does not wrap
modulo `2 ^ 64` (outside those bounds the stored `capacity` is the wrapped
product and the geometry link of `arenaWf` genuinely fails). -/
theorem create_wf (v : AVariant) (c s b : Nat) (hs : 0 < s)
    (hns : 0 < adjustedNumSlots c s) (hcap : adjustedNumSlots c s * s < 2 ^ 64) :
    arenaWfV v (Arena.create c s b) := by
  refine ⟨⟨hs, ?_, create_bitmapWf c s b hns, by show (0:Nat) < 2 ^ 16; norm_num⟩, ?_⟩
  · show adjustedNumSlots c s * s % 2 ^ 64 = adjustedNumSlots c s * s
    exact Nat.mod_eq_of_lt hcap
  · rcases v <;> simp only [AVariant.bv, bhintOk] <;> try trivial
    all_goals
      show (0 : Nat) ≤ _
      omega

theorem create_freeIdxSet_card (c s b : Nat) :
    (freeIdxSet (Arena.create c s b).bitmap).card = (Arena.create c s b).bitmap.num_slots := by
  unfold freeIdxSet
  rw [Finset.filter_true_of_mem, Finset.card_range]
  intro i hi
  exact create_allFree c s b i (Finset.mem_range.mp hi)

/-! No-op lemmas for invalid requests (claim C7). -/

theorem allocateWith_zero (bmAlloc : Bitmap → Option Nat × Bitmap) (a : Arena) :
    allocateWith bmAlloc 0 a = (none, a) := by
  unfold allocateWith
  simp

theorem allocateWith_multi (bmAlloc : Bitmap → Option Nat × Bitmap) (sz : Nat) (a : Arena)
    (h0 : sz ≠ 0) (hm : (sz + a.slot_size - 1) / a.slot_size ≠ 1) :
    allocateWith bmAlloc sz a = (none, a) := by
  unfold allocateWith
  rw [if_neg h0]
  simp only
  rw [if_neg hm]

theorem freeChecked_noop (bmFree : Nat → Bitmap → Nat × Bitmap) (p : Option Nat)
    (sz : Nat) (a : Arena)
    (hcond : p = none ∨ sz = 0 ∨
      (∃ q, p = some q ∧
        (q < a.base ∨ a.base + a.capacity ≤ q ∨ (q - a.base) % a.slot_size ≠ 0)) ∨
      (sz + a.slot_size - 1) / a.slot_size ≠ 1) :
    freeChecked bmFree p sz a = a := by
  rcases p with _ | q
  · rfl
  · unfold freeChecked
    simp only
    by_cases h1 : sz = 0
    · rw [if_pos h1]
    · rw [if_neg h1]
      by_cases h2 : q < a.base
      · rw [if_pos h2]
      · rw [if_neg h2]
        by_cases h3 : a.base + a.capacity ≤ q
        · rw [if_pos h3]
        · rw [if_neg h3]
          by_cases h4 : (q - a.base) % a.slot_size ≠ 0
          · rw [if_pos h4]
          · rw [if_neg h4]
            have h5 : (sz + a.slot_size - 1) / a.slot_size ≠ 1 := by
              rcases hcond with hc | hc | ⟨r, hr, hc⟩ | hc
              · exact absurd hc (by simp)
              · exact absurd hc h1
              · simp only [Option.some.injEq] at hr
                subst hr
                rcases hc with hc | hc | hc
                · exact absurd hc h2
                · exact absurd hc h3
                · exact absurd hc h4
              · exact hc
            rw [if_pos h5]

theorem freeLockFree_noop (bmFree : Nat → Bitmap → Nat × Bitmap) (p : Option Nat)
    (sz : Nat) (a : Arena)
    (hcond : p = none ∨ sz = 0 ∨
      (∃ q, p = some q ∧
        (q < a.base ∨ a.base + a.capacity ≤ q ∨ (q - a.base) % a.slot_size ≠ 0)) ∨
      (sz + a.slot_size - 1) / a.slot_size ≠ 1) :
    freeLockFree bmFree p sz a = a := by
  rcases p with _ | q
  · rfl
  · unfold freeLockFree
    simp only
    by_cases h1 : sz = 0
    · rw [if_pos h1]
    · rw [if_neg h1]
      by_cases h2 : q < a.base
      · rw [if_pos h2]
      · rw [if_neg h2]
        by_cases h3 : a.base + a.capacity ≤ q
        · rw [if_pos h3]
        · rw [if_neg h3]
          by_cases h4 : (q - a.base) % a.slot_size ≠ 0
          · rw [if_pos h4]
          · rw [if_neg h4]
            have h5 : (sz + a.slot_size - 1) / a.slot_size ≠ 1 := by
              rcases hcond with hc | hc | ⟨r, hr, hc⟩ | hc
              · exact absurd hc (by simp)
              · exact absurd hc h1
              · simp only [Option.some.injEq] at hr
                subst hr
                rcases hc with hc | hc | hc
                · exact absurd hc h2
                · exact absurd hc h3
                · exact absurd hc h4
              · exact hc
            rw [if_pos h5]

theorem free_noop (v : AVariant) (p : Option Nat) (sz : Nat) (a : Arena)
    (hcond : p = none ∨ sz = 0 ∨
      (∃ q, p = some q ∧
        (q < a.base ∨ a.base + a.capacity ≤ q ∨ (q - a.base) % a.slot_size ≠ 0)) ∨
      (sz + a.slot_size - 1) / a.slot_size ≠ 1) :
    v.free p sz a = a := by
  cases v
  case mutex => exact freeChecked_noop Bitmap.free_slot p sz a hcond
  case spin => exact freeChecked_noop Bitmap.free_slot p sz a hcond
  case lockFree => exact freeLockFree_noop BitmapLockFree.free_slot p sz a hcond
  case lockFreeHint => exact freeLockFree_noop BitmapLockFreeHint.free_slot p sz a hcond
  case noHint => exact freeChecked_noop BitmapNoHint.free_slot p sz a hcond
  case noHintSpin => exact freeChecked_noop BitmapNoHint.free_slot p sz a hcond

/-! Scan-order lemmas (claims C3 and C8). -/

/-- On a successful claim, the chosen word is the first word that is not
fully allocated in the wrap-around scan order starting at `scanStart`. -/
theorem bv_allocate_one_scan (v : BVariant) (b : Bitmap) (idx : Nat) (b' : Bitmap)
    (hwf : bitmapWf b) (hh : bhintOk v b)
    (h : v.allocate_one b = (some idx, b')) :
    ∃ wi bi, idx = get_slot_index_from_word_and_bit_index wi bi ∧
      wi < b.words.length ∧ b.words.getD wi 0 ≠ 0 ∧
      bi = MAX_IDX - countlZero (b.words.getD wi 0) ∧
      ((scanStart v b ≤ wi ∧ ∀ j, scanStart v b ≤ j → j < wi → b.words.getD j 0 = 0) ∨
        (wi < scanStart v b ∧
          (∀ j, scanStart v b ≤ j → j < b.words.length → b.words.getD j 0 = 0) ∧
          ∀ j, j < wi → b.words.getD j 0 = 0)) := by
  have hpos : 0 < b.words.length := hwf.2.2
  cases v
  case plain | spinPlain =>
    simp only [BVariant.allocate_one] at h
    unfold Bitmap.allocate_one at h
    rcases hs1 : scanWords b.words b.allocation_hint (b.words.length - b.allocation_hint)
      with _ | ⟨wi, bi⟩
    · rw [hs1] at h
      simp only at h
      rcases hs2 : scanWords b.words 0 b.allocation_hint with _ | ⟨wi, bi⟩
      · rw [hs2] at h
        simp at h
      · rw [hs2] at h
        obtain ⟨-, hw2, hw3, hbi, hprior⟩ := scanWords_some _ _ _ _ _ hs2
        simp only [FULLY_ALLOCATED, if_neg hw3, Option.some.injEq, Prod.mk.injEq] at h
        refine ⟨wi, bi, h.1.symm, ?_, hw3, hbi, Or.inr ⟨?_, ?_, ?_⟩⟩
        · simp only [bhintOk] at hh
          omega
        · simp only [scanStart]
          omega
        · intro j hj1 hj2
          exact (scanWords_none _ _ _).mp hs1 j hj1 (by omega)
        · intro j hj
          exact hprior j (by omega) hj
    · rw [hs1] at h
      obtain ⟨h1, hw2, hw3, hbi, hprior⟩ := scanWords_some _ _ _ _ _ hs1
      simp only [FULLY_ALLOCATED, if_neg hw3, Option.some.injEq, Prod.mk.injEq] at h
      refine ⟨wi, bi, h.1.symm, by omega, hw3, hbi, Or.inl ⟨h1, ?_⟩⟩
      intro j hj1 hj2
      exact hprior j hj1 hj2
  case lockFree | noHint | noHintSpin =>
    simp only [BVariant.allocate_one] at h
    first
      | unfold BitmapLockFree.allocate_one at h
      | unfold BitmapNoHint.allocate_one at h
    rcases hs : scanWords b.words 0 b.words.length with _ | ⟨wi, bi⟩
    · rw [hs] at h
      simp at h
    · rw [hs] at h
      simp only [Option.some.injEq, Prod.mk.injEq] at h
      obtain ⟨-, hw2, hw3, hbi, hprior⟩ := scanWords_some _ _ _ _ _ hs
      exact ⟨wi, bi, h.1.symm, by omega, hw3, hbi,
        Or.inl ⟨by simp [scanStart], fun j hj1 hj2 => hprior j hj1 hj2⟩⟩
  case lockFreeHint =>
    simp only [BVariant.allocate_one] at h
    unfold BitmapLockFreeHint.allocate_one at h
    simp only at h
    have hstart : (if b.words.length &&& (b.words.length - 1) = 0 then
        b.allocation_hint &&& (b.words.length - 1)
      else b.allocation_hint % b.words.length) ≤ b.words.length := by
      split
      · exact le_trans Nat.and_le_right (by omega)
      · exact le_of_lt (Nat.mod_lt _ hpos)
    have hse : scanStart .lockFreeHint b =
        (if b.words.length &&& (b.words.length - 1) = 0 then
          b.allocation_hint &&& (b.words.length - 1)
        else b.allocation_hint % b.words.length) := rfl
    rcases hs1 : scanWords b.words
        (if b.words.length &&& (b.words.length - 1) = 0 then
          b.allocation_hint &&& (b.words.length - 1)
        else b.allocation_hint % b.words.length)
        (b.words.length -
          (if b.words.length &&& (b.words.length - 1) = 0 then
            b.allocation_hint &&& (b.words.length - 1)
          else b.allocation_hint % b.words.length))
      with _ | ⟨wi, bi⟩
    · rw [hs1] at h
      simp only at h
      rcases hs2 : scanWords b.words 0
          (if b.words.length &&& (b.words.length - 1) = 0 then
            b.allocation_hint &&& (b.words.length - 1)
          else b.allocation_hint % b.words.length)
        with _ | ⟨wi, bi⟩
      · rw [hs2] at h
        simp at h
      · rw [hs2] at h
        simp only [Option.some.injEq, Prod.mk.injEq] at h
        obtain ⟨-, hw2, hw3, hbi, hprior⟩ := scanWords_some _ _ _ _ _ hs2
        refine ⟨wi, bi, h.1.symm, by omega, hw3, hbi, Or.inr ⟨?_, ?_, ?_⟩⟩
        · rw [hse]
          omega
        · rw [hse]
          intro j hj1 hj2
          exact (scanWords_none _ _ _).mp hs1 j hj1 (by omega)
        · intro j hj
          exact hprior j (by omega) hj
    · rw [hs1] at h
      simp only [Option.some.injEq, Prod.mk.injEq] at h
      obtain ⟨h1, hw2, hw3, hbi, hprior⟩ := scanWords_some _ _ _ _ _ hs1
      refine ⟨wi, bi, h.1.symm, by omega, hw3, hbi, Or.inl ⟨?_, ?_⟩⟩
      · rw [hse]
        exact h1
      · rw [hse]
        intro j hj1 hj2
        exact hprior j hj1 hj2

/-- A nonzero value whose bitwise AND with its predecessor is zero is a
power of two (justifies the `num_words_is_pow2` fast path). -/
theorem pow_two_of_and_pred_eq_zero (n : Nat) (hpos : 0 < n) (h : n &&& (n - 1) = 0) :
    ∃ k, n = 2 ^ k := by
  obtain ⟨hl, hr, hbpos, -⟩ := bitLen_spec n n hpos (Nat.lt_two_pow n)
  set k := bitLen n n - 1 with hk
  have hsucc : k + 1 = bitLen n n := by omega
  by_cases heq : n = 2 ^ k
  · exact ⟨k, heq⟩
  · exfalso
    have hgt : 2 ^ k < n := lt_of_le_of_ne hl (fun hcontra => heq hcontra.symm)
    have htn : n.testBit k = true := testBit_of_pow_le_lt hl (by rw [hsucc]; exact hr)
    have htn1 : (n - 1).testBit k = true :=
      testBit_of_pow_le_lt (by omega) (by rw [hsucc]; omega)
    have : (n &&& (n - 1)).testBit k = true := by
      rw [Nat.testBit_and, htn, htn1]
      rfl
    rw [h, Nat.zero_testBit] at this
    exact absurd this (by simp)

/-- The lock-free hint variant advances its hint counter by exactly one per
call, whatever the outcome. -/
theorem lockFreeHint_hint_advance (b : Bitmap) :
    (BitmapLockFreeHint.allocate_one b).2.allocation_hint = b.allocation_hint + 1 := by
  unfold BitmapLockFreeHint.allocate_one
  simp only
  rcases hs1 : scanWords b.words
      (if b.words.length &&& (b.words.length - 1) = 0 then
        b.allocation_hint &&& (b.words.length - 1)
      else b.allocation_hint % b.words.length)
      (b.words.length -
        (if b.words.length &&& (b.words.length - 1) = 0 then
          b.allocation_hint &&& (b.words.length - 1)
        else b.allocation_hint % b.words.length))
    with _ | ⟨wi, bi⟩
  · rcases hs2 : scanWords b.words 0
        (if b.words.length &&& (b.words.length - 1) = 0 then
          b.allocation_hint &&& (b.words.length - 1)
        else b.allocation_hint % b.words.length)
      with _ | ⟨wi, bi⟩
    · rfl
    · rfl
  · rfl

/-- The lock-free hint variant's starting word is the fetched counter value
modulo the word count, also on the power-of-two fast path. -/
theorem scanStart_lockFreeHint_mod (b : Bitmap) (hpos : 0 < b.words.length) :
    scanStart .lockFreeHint b = b.allocation_hint % b.words.length := by
  simp only [scanStart]
  split
  case isTrue hp2 =>
    obtain ⟨k, hk⟩ := pow_two_of_and_pred_eq_zero b.words.length hpos hp2
    rw [hk, Nat.and_pow_two_sub_one_eq_mod]
  case isFalse => rfl

/-- `allocate_one` returns none exactly when every word is fully
allocated. -/
theorem bv_none_iff_all_zero (v : BVariant) (b : Bitmap) (hwf : bitmapWf b)
    (hh : bhintOk v b) :
    (v.allocate_one b).1 = none ↔ ∀ w ∈ b.words, w = 0 := by
  constructor
  · intro h
    rcases hr : v.allocate_one b with ⟨ro, b'⟩
    rw [hr] at h
    simp only at h
    subst h
    exact (bv_allocate_one_none v b b' hwf hh hr).2.2.2.2
  · intro hz
    rcases hr : v.allocate_one b with ⟨ro, b'⟩
    rcases ro with _ | idx
    · rfl
    · exfalso
      obtain ⟨hcp, -, -⟩ := bv_allocate_one_some v b idx b' hwf hh hr
      obtain ⟨hwi, hwnz⟩ := nonzero_word_of_slotFree b hwf idx hcp.1 hcp.2.1
      have hmem : b.words.getD (idx / 64) 0 ∈ b.words := by
        rw [getD_eq_getElem _ _ hwi]
        exact List.getElem_mem hwi
      exact hwnz (hz _ hmem)

/-- When no free slot remains, `allocate` returns null. -/
theorem allocate_none_of_no_free (v : AVariant) (sz : Nat) (a : Arena)
    (hwf : arenaWfV v a) (hempty : (freeIdxSet a.bitmap).card = 0) :
    (v.allocate sz a).1 = none := by
  rcases hr : v.allocate sz a with ⟨ro, a'⟩
  rcases ro with _ | p
  · rfl
  · exfalso
    obtain ⟨i, -, hcp, -⟩ := allocate_some_spec v sz a p a' hwf hr
    have hmem : i ∈ freeIdxSet a.bitmap := (mem_freeIdxSet _ _).mpr ⟨hcp.1, hcp.2.1⟩
    have := Finset.card_pos.mpr ⟨i, hmem⟩
    omega

/-! The claims. -/

/-- C6: for every arena state in which every slot is allocated (all bitmap
words are 0), `allocate(size)` with `0 < size ≤ slot_size` returns null and
leaves `occupied_count` and the bitmap unchanged. -/
theorem claim_c6_allocate_full_null (v : AVariant) (sz : Nat) (a : Arena)
    (hwf : arenaWfV v a) (hz : ∀ w ∈ a.bitmap.words, w = 0)
    (h0 : 0 < sz) (hle : sz ≤ a.slot_size) :
    (v.allocate sz a).1 = none ∧
      (v.allocate sz a).2.bitmap.words = a.bitmap.words ∧
      (v.allocate sz a).2.slots_in_use = a.slots_in_use := by
  rcases hr : v.allocate sz a with ⟨ro, a'⟩
  rcases ro with _ | p
  · obtain ⟨hw, -, -, -, -, hcnt, -, -⟩ := allocate_none_spec v sz a a' hwf hr
    exact ⟨rfl, hw, hcnt⟩
  · exfalso
    obtain ⟨i, -, hcp, -⟩ := allocate_some_spec v sz a p a' hwf hr
    obtain ⟨hwi, hwnz⟩ := nonzero_word_of_slotFree a.bitmap hwf.1.2.2.1 i hcp.1 hcp.2.1
    have hmem : a.bitmap.words.getD (i / 64) 0 ∈ a.bitmap.words := by
      rw [getD_eq_getElem _ _ hwi]
      exact List.getElem_mem hwi
    exact hwnz (hz _ hmem)

theorem claim_c6_witness :
    (arenaWfV AVariant.mutex (⟨64, 5, 1, ⟨64, [0], 0, 0⟩, 7⟩ : Arena) ∧
      (∀ w ∈ (⟨64, 5, 1, ⟨64, [0], 0, 0⟩, 7⟩ : Arena).bitmap.words, w = 0) ∧
      0 < 1 ∧ 1 ≤ (⟨64, 5, 1, ⟨64, [0], 0, 0⟩, 7⟩ : Arena).slot_size) ∧
    ((AVariant.mutex.allocate 1 (⟨64, 5, 1, ⟨64, [0], 0, 0⟩, 7⟩ : Arena)).1 = none ∧
      (AVariant.mutex.allocate 1 (⟨64, 5, 1, ⟨64, [0], 0, 0⟩, 7⟩ : Arena)).2.bitmap.words =
        (⟨64, 5, 1, ⟨64, [0], 0, 0⟩, 7⟩ : Arena).bitmap.words ∧
      (AVariant.mutex.allocate 1 (⟨64, 5, 1, ⟨64, [0], 0, 0⟩, 7⟩ : Arena)).2.slots_in_use =
        (⟨64, 5, 1, ⟨64, [0], 0, 0⟩, 7⟩ : Arena).slots_in_use) :=
  ⟨⟨by decide, by decide, by decide, by decide⟩,
    claim_c6_allocate_full_null AVariant.mutex 1 (⟨64, 5, 1, ⟨64, [0], 0, 0⟩, 7⟩ : Arena)
      (by decide) (by decide) (by decide) (by decide)⟩

/-- C9: for every balanced sequence of `allocate` and `free` calls on an
arena (equal numbers of successful allocates and successful frees — a
successful free being one that performs the release and decrements the
counter), `occupied_count` at the end equals its starting value. -/
theorem claim_c9_balanced_counter (v : AVariant) (ops : List ArenaOp) (a : Arena)
    (hwf : arenaWfV v a)
    (hbal : succAllocs v ops a = succFrees v ops a) :
    (runOps v ops a).slots_in_use = a.slots_in_use := by
  have hcnt : a.slots_in_use < 2 ^ 16 := hwf.1.2.2.2
  rw [runOps_count v ops a hcnt, hbal]
  omega

theorem claim_c9_witness :
    (arenaWfV AVariant.mutex (Arena.create 1 1 5) ∧
      succAllocs AVariant.mutex [ArenaOp.alloc 1, ArenaOp.dealloc (some 68) 1]
          (Arena.create 1 1 5) =
        succFrees AVariant.mutex [ArenaOp.alloc 1, ArenaOp.dealloc (some 68) 1]
          (Arena.create 1 1 5)) ∧
    (runOps AVariant.mutex [ArenaOp.alloc 1, ArenaOp.dealloc (some 68) 1]
        (Arena.create 1 1 5)).slots_in_use = (Arena.create 1 1 5).slots_in_use :=
  ⟨⟨by decide, by decide⟩,
    claim_c9_balanced_counter AVariant.mutex [ArenaOp.alloc 1, ArenaOp.dealloc (some 68) 1]
      (Arena.create 1 1 5) (by decide) (by decide)⟩

/-- C7: for every arena state, each invalid request is a silent no-op that
leaves the whole state (bitmap and `occupied_count`) unchanged:
`allocate(0)` returns null; `allocate(size)` needing more than one slot
returns null; `free` with a null pointer, zero size, a pointer outside
`[base, base + region_size)`, a pointer whose offset from base is not a
multiple of `slot_size`, or a multi-slot size does nothing. -/
theorem claim_c7_invalid_requests_noop (v : AVariant) (a : Arena) :
    (v.allocate 0 a = (none, a)) ∧
    (∀ sz, 1 < (sz + a.slot_size - 1) / a.slot_size → v.allocate sz a = (none, a)) ∧
    (∀ sz, v.free none sz a = a) ∧
    (∀ p, v.free (some p) 0 a = a) ∧
    (∀ p sz, p < a.base → v.free (some p) sz a = a) ∧
    (∀ p sz, a.base + a.capacity ≤ p → v.free (some p) sz a = a) ∧
    (∀ p sz, (p - a.base) % a.slot_size ≠ 0 → v.free (some p) sz a = a) ∧
    (∀ p sz, 1 < (sz + a.slot_size - 1) / a.slot_size → v.free (some p) sz a = a) := by
  refine ⟨?_, ?_, ?_, ?_, ?_, ?_, ?_, ?_⟩
  · rw [AVariant.allocate_eq]
    exact allocateWith_zero _ a
  · intro sz hm
    rw [AVariant.allocate_eq]
    by_cases h0 : sz = 0
    · subst h0
      exact allocateWith_zero _ a
    · exact allocateWith_multi _ sz a h0 (by omega)
  · intro sz
    exact free_noop v none sz a (Or.inl rfl)
  · intro p
    exact free_noop v (some p) 0 a (Or.inr (Or.inl rfl))
  · intro p sz h
    exact free_noop v (some p) sz a (Or.inr (Or.inr (Or.inl ⟨p, rfl, Or.inl h⟩)))
  · intro p sz h
    exact free_noop v (some p) sz a (Or.inr (Or.inr (Or.inl ⟨p, rfl, Or.inr (Or.inl h)⟩)))
  · intro p sz h
    exact free_noop v (some p) sz a (Or.inr (Or.inr (Or.inl ⟨p, rfl, Or.inr (Or.inr h)⟩)))
  · intro p sz hm
    exact free_noop v (some p) sz a (Or.inr (Or.inr (Or.inr (by omega))))

theorem claim_c7_witness :
    ((AVariant.mutex.allocate 0 (Arena.create 1 1 5) = (none, Arena.create 1 1 5)) ∧
      (∀ sz, 1 < (sz + (Arena.create 1 1 5).slot_size - 1) / (Arena.create 1 1 5).slot_size →
        AVariant.mutex.allocate sz (Arena.create 1 1 5) = (none, Arena.create 1 1 5)) ∧
      (∀ sz, AVariant.mutex.free none sz (Arena.create 1 1 5) = Arena.create 1 1 5) ∧
      (∀ p, AVariant.mutex.free (some p) 0 (Arena.create 1 1 5) = Arena.create 1 1 5) ∧
      (∀ p sz, p < (Arena.create 1 1 5).base →
        AVariant.mutex.free (some p) sz (Arena.create 1 1 5) = Arena.create 1 1 5) ∧
      (∀ p sz, (Arena.create 1 1 5).base + (Arena.create 1 1 5).capacity ≤ p →
        AVariant.mutex.free (some p) sz (Arena.create 1 1 5) = Arena.create 1 1 5) ∧
      (∀ p sz, (p - (Arena.create 1 1 5).base) % (Arena.create 1 1 5).slot_size ≠ 0 →
        AVariant.mutex.free (some p) sz (Arena.create 1 1 5) = Arena.create 1 1 5) ∧
      (∀ p sz, 1 < (sz + (Arena.create 1 1 5).slot_size - 1) / (Arena.create 1 1 5).slot_size →
        AVariant.mutex.free (some p) sz (Arena.create 1 1 5) = Arena.create 1 1 5)) ∧
    AVariant.mutex.allocate 2 (Arena.create 1 1 5) = (none, Arena.create 1 1 5) :=
  ⟨claim_c7_invalid_requests_noop AVariant.mutex (Arena.create 1 1 5),
    (claim_c7_invalid_requests_noop AVariant.mutex (Arena.create 1 1 5)).2.1 2 (by decide)⟩

/-- C2 (code bug evidence): in `ArenaLockFree` (capacity 1, slot_size 1,
base 7), `allocate(1)` returns `base + 63 = 70`; the first `free(70, 1)`
brings `slots_in_use` back to 0, but a second `free(70, 1)` of the same
pointer decrements it again, leaving the 16-bit pattern `0xFFFF`
(signed value -1), although the bitmap is unchanged by the second call.
This happens because `BitmapLockFree::free_slot` returns 0 unconditionally,
so `ArenaLockFree::free`'s `rc == 0` branch always decrements — contradicting
both the claim and the code's own comment (`rc == 1 double-free`).
The mutex-protected `Arena` behaves as claimed on the same input
(its counter stays 0, last conjunct). -/
theorem claim_c2_lockfree_double_free_decrements_twice :
    (ArenaLockFree.allocate 1 (Arena.create 1 1 7)).1 = some 70 ∧
    (ArenaLockFree.free (some 70) 1
        (ArenaLockFree.allocate 1 (Arena.create 1 1 7)).2).slots_in_use = 0 ∧
    (ArenaLockFree.free (some 70) 1
        (ArenaLockFree.free (some 70) 1
          (ArenaLockFree.allocate 1 (Arena.create 1 1 7)).2)).slots_in_use = 2 ^ 16 - 1 ∧
    toInt16 (ArenaLockFree.free (some 70) 1
        (ArenaLockFree.free (some 70) 1
          (ArenaLockFree.allocate 1 (Arena.create 1 1 7)).2)).slots_in_use = -1 ∧
    (ArenaLockFree.free (some 70) 1
        (ArenaLockFree.free (some 70) 1
          (ArenaLockFree.allocate 1 (Arena.create 1 1 7)).2)).bitmap.words =
      (ArenaLockFree.free (some 70) 1
        (ArenaLockFree.allocate 1 (Arena.create 1 1 7)).2).bitmap.words ∧
    (Arena.free (some 70) 1
        (Arena.free (some 70) 1
          (Arena.allocate 1 (Arena.create 1 1 7)).2)).slots_in_use = 0 := by
  decide

/-- C8 (counterexample): a lock-free-hint bitmap with 4 words in which only
word 3 has free bits, hint counter 0.  `allocate_one` succeeds at word 3
(slot 255), yet the next call will start its scan at word `1 % 4 = 1` —
at circular distance 2 from the word that succeeded, the maximum possible
distance among 4 words.  So a successful claim does not leave the hint near
the word that succeeded: the counter is simply advanced by one from this
call's starting position. -/
theorem claim_c8_hint_not_near_counterexample :
    (BitmapLockFreeHint.allocate_one (⟨256, [0, 0, 0, FULLY_FREE], 0, 0⟩ : Bitmap)).1 =
      some 255 ∧
    (255 : Nat) / 64 = 3 ∧
    scanStart BVariant.lockFreeHint
      (BitmapLockFreeHint.allocate_one (⟨256, [0, 0, 0, FULLY_FREE], 0, 0⟩ : Bitmap)).2 = 1 ∧
    circDist 4 1 3 = 2 ∧
    (∀ s, s < 4 → ∀ t, t < 4 → circDist 4 s t ≤ 2) := by
  decide

/-- C8 (amended): in the lock-free hint variant, every `claim_one` call
obtains its starting word index by atomically advancing the shared counter
by one and reducing the fetched value modulo the word count (round-robin),
scans from there wrapping around once (returning none exactly when every
word is 0); the counter is advanced by exactly one per call regardless of
outcome and of where the claim succeeded, so subsequent calls start one past
this call's starting position rather than re-scanning from zero — the hint is
not moved to the word that succeeded. -/
theorem claim_c8_round_robin_hint (b : Bitmap) (hwf : bitmapWf b) :
    (BitmapLockFreeHint.allocate_one b).2.allocation_hint = b.allocation_hint + 1 ∧
    scanStart BVariant.lockFreeHint b = b.allocation_hint % b.words.length ∧
    ((BitmapLockFreeHint.allocate_one b).1 = none ↔ ∀ w ∈ b.words, w = 0) ∧
    (∀ idx b', BitmapLockFreeHint.allocate_one b = (some idx, b') →
      ∃ wi bi, idx = 64 * wi + bi ∧ wi < b.words.length ∧ b.words.getD wi 0 ≠ 0 ∧
        bi = 63 - countlZero (b.words.getD wi 0) ∧
        ((scanStart BVariant.lockFreeHint b ≤ wi ∧
            ∀ j, scanStart BVariant.lockFreeHint b ≤ j → j < wi → b.words.getD j 0 = 0) ∨
          (wi < scanStart BVariant.lockFreeHint b ∧
            (∀ j, scanStart BVariant.lockFreeHint b ≤ j → j < b.words.length →
              b.words.getD j 0 = 0) ∧
            ∀ j, j < wi → b.words.getD j 0 = 0))) := by
  refine ⟨lockFreeHint_hint_advance b, scanStart_lockFreeHint_mod b hwf.2.2,
    bv_none_iff_all_zero BVariant.lockFreeHint b hwf trivial, ?_⟩
  intro idx b' h
  obtain ⟨wi, bi, hidx, hwi, hwz, hbi, horder⟩ :=
    bv_allocate_one_scan BVariant.lockFreeHint b idx b' hwf trivial h
  have hbi64 : bi < 64 := by
    rw [hbi]
    have := hiBit_lt_64 (b.words.getD wi 0)
    simp only [MAX_IDX] at this ⊢
    omega
  refine ⟨wi, bi, ?_, hwi, hwz, hbi, horder⟩
  rw [hidx, slot_index_eq wi bi hbi64]

theorem claim_c8_witness :
    bitmapWf (⟨256, [0, 0, 0, FULLY_FREE], 5, 0⟩ : Bitmap) ∧
    (BitmapLockFreeHint.allocate_one
        (⟨256, [0, 0, 0, FULLY_FREE], 5, 0⟩ : Bitmap)).2.allocation_hint =
      (⟨256, [0, 0, 0, FULLY_FREE], 5, 0⟩ : Bitmap).allocation_hint + 1 ∧
    scanStart BVariant.lockFreeHint (⟨256, [0, 0, 0, FULLY_FREE], 5, 0⟩ : Bitmap) =
      (⟨256, [0, 0, 0, FULLY_FREE], 5, 0⟩ : Bitmap).allocation_hint %
        (⟨256, [0, 0, 0, FULLY_FREE], 5, 0⟩ : Bitmap).words.length :=
  ⟨by decide,
    (claim_c8_round_robin_hint (⟨256, [0, 0, 0, FULLY_FREE], 5, 0⟩ : Bitmap) (by decide)).1,
    (claim_c8_round_robin_hint (⟨256, [0, 0, 0, FULLY_FREE], 5, 0⟩ : Bitmap) (by decide)).2.1⟩

/-- C5: an arena created with capacity 256 KiB and slot_size 4 KiB has
exactly 64 slots; 64 consecutive `allocate(4096)` calls all succeed and
return pairwise distinct pointers; the 65th `allocate(4096)` returns null;
and after freeing any one of the 64 returned pointers with
`free(p, 4096)`, one further `allocate(4096)` succeeds. -/
theorem claim_c5_concrete_scenario_256k (base : Nat) :
    (Arena.create 262144 4096 base).bitmap.num_slots = 64 ∧
    (∀ r ∈ (runAllocs AVariant.mutex (List.replicate 64 4096)
        (Arena.create 262144 4096 base)).1, r.isSome) ∧
    (runAllocs AVariant.mutex (List.replicate 64 4096)
        (Arena.create 262144 4096 base)).1.Pairwise (· ≠ ·) ∧
    (AVariant.mutex.allocate 4096 (runAllocs AVariant.mutex (List.replicate 64 4096)
        (Arena.create 262144 4096 base)).2).1 = none ∧
    (∀ po ∈ (runAllocs AVariant.mutex (List.replicate 64 4096)
        (Arena.create 262144 4096 base)).1,
      (AVariant.mutex.allocate 4096
        (AVariant.mutex.free po 4096
          (runAllocs AVariant.mutex (List.replicate 64 4096)
            (Arena.create 262144 4096 base)).2)).1.isSome) := by
  have hns : (Arena.create 262144 4096 base).bitmap.num_slots = 64 := rfl
  have hss0 : (Arena.create 262144 4096 base).slot_size = 4096 := rfl
  have hwf : arenaWfV AVariant.mutex (Arena.create 262144 4096 base) :=
    create_wf AVariant.mutex 262144 4096 base (by norm_num) (by decide) (by decide)
  have hcard : (freeIdxSet (Arena.create 262144 4096 base).bitmap).card = 64 := by
    rw [create_freeIdxSet_card]
    exact hns
  have hszcond : ∀ sz ∈ List.replicate 64 4096,
      0 < sz ∧ sz ≤ (Arena.create 262144 4096 base).slot_size := by
    intro sz hsz
    rw [List.eq_of_mem_replicate hsz, hss0]
    norm_num
  have hlen : (List.replicate 64 4096).length ≤
      (freeIdxSet (Arena.create 262144 4096 base).bitmap).card := by
    rw [List.length_replicate, hcard]
  obtain ⟨hall, hcardf, -, hwfF, hbF, hsF, -, hnF⟩ :=
    runAllocs_full AVariant.mutex (List.replicate 64 4096) (Arena.create 262144 4096 base)
      hwf hszcond hlen
  obtain ⟨-, -, -, -, -, -, hptr, hpw⟩ :=
    runAllocs_spec AVariant.mutex (List.replicate 64 4096) (Arena.create 262144 4096 base)
      hwf hall
  have hempty : (freeIdxSet (runAllocs AVariant.mutex (List.replicate 64 4096)
      (Arena.create 262144 4096 base)).2.bitmap).card = 0 := by
    rw [hcardf, hcard, List.length_replicate]
  refine ⟨hns, hall, hpw, allocate_none_of_no_free AVariant.mutex 4096 _ hwfF hempty, ?_⟩
  intro po hpo
  obtain ⟨i, hin, hre, -, hfin⟩ := hptr po hpo
  have hiF : i < (runAllocs AVariant.mutex (List.replicate 64 4096)
      (Arena.create 262144 4096 base)).2.bitmap.num_slots := by
    rw [hnF]
    exact hin
  have hle4096 : 4096 ≤ (runAllocs AVariant.mutex (List.replicate 64 4096)
      (Arena.create 262144 4096 base)).2.slot_size := by
    rw [hsF, hss0]
  obtain ⟨hchar, -, hs2, -, hn2, -, hwf2⟩ :=
    free_allocated_spec AVariant.mutex
      (runAllocs AVariant.mutex (List.replicate 64 4096)
        (Arena.create 262144 4096 base)).2 i 4096 hwfF hiF hfin (by norm_num) hle4096
  rw [hre, ← hbF, ← hsF]
  apply allocate_succeeds AVariant.mutex 4096 _ hwf2 (by norm_num)
    (by rw [hs2, hsF, hss0]) i (by rw [hn2]; exact hiF)
  rw [hchar i]
  simp

theorem claim_c5_witness :
    some 262144 ∈ (runAllocs AVariant.mutex (List.replicate 64 4096)
        (Arena.create 262144 4096 4096)).1 ∧
    (AVariant.mutex.allocate 4096
      (AVariant.mutex.free (some 262144) 4096
        (runAllocs AVariant.mutex (List.replicate 64 4096)
          (Arena.create 262144 4096 4096)).2)).1.isSome :=
  ⟨by decide,
    (claim_c5_concrete_scenario_256k 4096).2.2.2.2 (some 262144) (by decide)⟩

end ArenaAlloc
